import Mathlib

/-!
Shallow embedding of the rasterization core of `src/triangles.rs`
(structs `Point2D`, `Triangle2D`, `Point3D`, `Triangle3D`, `ColorTriangle`,
`PaintBuffer`, `Camera`, `Light`, `Scene` and their methods), with
floating-point (`f64`) arithmetic idealized as exact rational arithmetic.
Depth-buffer entries are modelled as `WithTop ℚ` so that the IEEE value
`+infinity` is representable (`⊤`) and distinguishable from the finite
sentinel `f64::MAX` the code actually stores.  `u32` values are modelled
as `ℕ`; the saturating Rust `as u32` cast on floats is modelled explicitly.
The trigonometric method `Point3D::rotated_xz` is modelled over `ℝ`,
with `atan2(z, x)` rendered as `Complex.arg ⟨x, z⟩`.
-/

/-- The largest finite `f64` value, `f64::MAX = (2^53 - 1) * 2^971`, as an
exact rational.  This is the sentinel `PaintBuffer::new` stores in the depth
buffer. -/
def f64MAX : ℚ := (2 ^ 53 - 1) * 2 ^ 971

/-- Rust `as u32` cast applied to an `f64`: truncate toward zero, saturating
at `0` below and at `u32::MAX` above. -/
def rustCastU32 (q : ℚ) : ℕ := min (Int.toNat ⌊q⌋) (2 ^ 32 - 1)

/-- Rust `.ceil() as u32` applied to an `f64`: round up, then cast with
saturation. -/
def rustCeilU32 (q : ℚ) : ℕ := min (Int.toNat ⌈q⌉) (2 ^ 32 - 1)

/-- `struct Point2D { x: f64, y: f64 }` -/
structure Point2D where
  x : ℚ
  y : ℚ
deriving DecidableEq, Repr

/-- `Point2D::translated_by` -/
def Point2D.translated_by (p offset : Point2D) : Point2D :=
  ⟨p.x + offset.x, p.y + offset.y⟩

/-- `struct Triangle2D { a: Point2D, b: Point2D, c: Point2D }` -/
structure Triangle2D where
  a : Point2D
  b : Point2D
  c : Point2D
deriving DecidableEq, Repr

/-- `Triangle2D::translated_by` -/
def Triangle2D.translated_by (t : Triangle2D) (offset : Point2D) : Triangle2D :=
  ⟨t.a.translated_by offset, t.b.translated_by offset, t.c.translated_by offset⟩

/-- `Triangle2D::edge_function`:
`(b.x - a.x) * (c.y - a.y) - (b.y - a.y) * (c.x - a.x)` -/
def Triangle2D.edge_function (a b c : Point2D) : ℚ :=
  (b.x - a.x) * (c.y - a.y) - (b.y - a.y) * (c.x - a.x)

/-- `Triangle2D::signed_area`: `2.0 * edge_function(a, b, c)` -/
def Triangle2D.signed_area (t : Triangle2D) : ℚ :=
  2 * Triangle2D.edge_function t.a t.b t.c

/-- `Triangle2D::get_weights_at`: barycentric weights as ratios of
sub-triangle edge functions to the whole-triangle edge function. -/
def Triangle2D.get_weights_at (t : Triangle2D) (p : Point2D) : ℚ × ℚ × ℚ :=
  let abc := Triangle2D.edge_function t.a t.b t.c
  let abp := Triangle2D.edge_function t.a t.b p
  let bcp := Triangle2D.edge_function t.b t.c p
  let cap := Triangle2D.edge_function t.c t.a p
  (bcp / abc, cap / abc, abp / abc)

/-- `Triangle2D::contains_point`: all three barycentric weights
non-negative.  (The source also computes an unused local `area`.) -/
def Triangle2D.contains_point (t : Triangle2D) (p : Point2D) : Bool :=
  let w := t.get_weights_at p
  decide (0 ≤ w.1) && decide (0 ≤ w.2.1) && decide (0 ≤ w.2.2)

/-- `Triangle2D::get_bounding_box`: the two returned `Range<f64>` values,
modelled as `(start, end)` pairs, `((min_x, max_x), (min_y, max_y))`.
Note the source combines `f64::min(1.0, ..)` for the minima and
`f64::max(0.0, ..)` for the maxima. -/
def Triangle2D.get_bounding_box (t : Triangle2D) : (ℚ × ℚ) × (ℚ × ℚ) :=
  let min_x := min 1 (min (min t.a.x t.b.x) t.c.x)
  let max_x := max 0 (max (max t.a.x t.b.x) t.c.x)
  let min_y := min 1 (min (min t.a.y t.b.y) t.c.y)
  let max_y := max 0 (max (max t.a.y t.b.y) t.c.y)
  ((min_x, max_x), (min_y, max_y))

/-- `Triangle2D::get_bounding_box_px`: scale the normalized bounding box to
pixel coordinates with `.floor() as u32` / `.ceil() as u32`. -/
def Triangle2D.get_bounding_box_px (t : Triangle2D) (width height : ℕ) :
    (ℕ × ℕ) × (ℕ × ℕ) :=
  let bb := t.get_bounding_box
  let min_x := rustCastU32 (bb.1.1 * width)
  let max_x := rustCeilU32 (bb.1.2 * width)
  let min_y := rustCastU32 (bb.2.1 * height)
  let max_y := rustCeilU32 (bb.2.2 * height)
  ((min_x, max_x), (min_y, max_y))

/-- `struct Point3D { x: f64, y: f64, z: f64 }`, parameterized by the
number type so that the rasterization pipeline can be stated over `ℚ` and
the trigonometric rotation over `ℝ`. -/
structure Point3D (α : Type) where
  x : α
  y : α
  z : α
deriving DecidableEq, Repr

/-- `Point3D::translated_by` -/
def Point3D.translated_by {α : Type} [Add α] (p offset : Point3D α) : Point3D α :=
  ⟨p.x + offset.x, p.y + offset.y, p.z + offset.z⟩

/-- `Point3D::get_translating_point`: `(-x, -y, -z)` -/
def Point3D.get_translating_point {α : Type} [Neg α] (p : Point3D α) : Point3D α :=
  ⟨-p.x, -p.y, -p.z⟩

/-- `Point3D::project_to_2d`: perspective divide `(x/z, y/z)`. -/
def Point3D.project_to_2d (p : Point3D ℚ) : Point2D :=
  ⟨p.x / p.z, p.y / p.z⟩

/-- `Point3D::rotated_xz`: convert `(x, z)` to polar form with
`magnitude = sqrt(x^2 + z^2)` and `theta = atan2(z, x) + rotation`, then
reconstruct; `y` is passed through.  `atan2(z, x)` is `Complex.arg ⟨x, z⟩`. -/
noncomputable def Point3D.rotated_xz (p : Point3D ℝ) (rotation : ℝ) : Point3D ℝ :=
  let magnitude := Real.sqrt (p.x ^ 2 + p.z ^ 2)
  let theta := Complex.arg ⟨p.x, p.z⟩ + rotation
  ⟨magnitude * Real.cos theta, p.y, magnitude * Real.sin theta⟩

/-- `struct Triangle3D { a: Point3D, b: Point3D, c: Point3D }` -/
structure Triangle3D (α : Type) where
  a : Point3D α
  b : Point3D α
  c : Point3D α
deriving DecidableEq, Repr

/-- `Triangle3D::translated_by` -/
def Triangle3D.translated_by {α : Type} [Add α] (t : Triangle3D α)
    (offset : Point3D α) : Triangle3D α :=
  ⟨t.a.translated_by offset, t.b.translated_by offset, t.c.translated_by offset⟩

/-- `Triangle3D::project_to_2d` -/
def Triangle3D.project_to_2d (t : Triangle3D ℚ) : Triangle2D :=
  ⟨t.a.project_to_2d, t.b.project_to_2d, t.c.project_to_2d⟩

/-- `struct Camera { position: Point3D, view_dir: Point3D }` -/
structure Camera where
  position : Point3D ℚ
  view_dir : Point3D ℚ
deriving DecidableEq, Repr

/-- `struct Light { position: Point3D, color: (f64, f64, f64) }` -/
structure Light where
  position : Point3D ℚ
  color : ℚ × ℚ × ℚ
deriving DecidableEq, Repr

/-- `struct Scene(Camera, Light)` -/
structure Scene where
  camera : Camera
  light : Light
deriving DecidableEq, Repr

/-- `struct PaintBuffer`: `width`, `height`, parallel flat `z_buffer` and
`pixel_buffer`.  Depth entries live in `WithTop ℚ` so that `+infinity` is
representable; colors are `u32` values modelled as `ℕ`. -/
structure PaintBuffer where
  width : ℕ
  height : ℕ
  z_buffer : List (WithTop ℚ)
  pixel_buffer : List ℕ
deriving DecidableEq, Repr

/-- `PaintBuffer::new`: depth entries all `f64::MAX`, colors all `0`. -/
def PaintBuffer.new (width height : ℕ) : PaintBuffer :=
  let buffer_size := width * height
  ⟨width, height, List.replicate buffer_size (↑f64MAX : WithTop ℚ),
    List.replicate buffer_size 0⟩

/-- The `y`-flipped camera-space triangle built at the top of
`Triangle3D::paint_to_buffer`: translate by the negated camera position,
then multiply every vertex's `y` by `-1`. -/
def Triangle3D.translated_triangle (t : Triangle3D ℚ) (camera : Camera) :
    Triangle3D ℚ :=
  let tt := t.translated_by camera.position.get_translating_point
  ⟨⟨tt.a.x, tt.a.y * (-1), tt.a.z⟩,
   ⟨tt.b.x, tt.b.y * (-1), tt.b.z⟩,
   ⟨tt.c.x, tt.c.y * (-1), tt.c.z⟩⟩

/-- The projected screen triangle of `Triangle3D::paint_to_buffer`:
perspective-divide the translated triangle, then translate by
`(0.5, 0.5)`. -/
def Triangle3D.projected_triangle (t : Triangle3D ℚ) (camera : Camera) :
    Triangle2D :=
  ((t.translated_triangle camera).project_to_2d).translated_by ⟨1/2, 1/2⟩

/-- The interpolated depth `z_val = self.a.z * weight_a + self.b.z *
weight_b + self.c.z * weight_c` of `Triangle3D::paint_to_buffer` (note the
source reads `self`, i.e. the vertex `z` before camera translation). -/
def Triangle3D.z_val (t : Triangle3D ℚ) (w : ℚ × ℚ × ℚ) : ℚ :=
  t.a.z * w.1 + t.b.z * w.2.1 + t.c.z * w.2.2

/-- The body of the double pixel loop of `Triangle3D::paint_to_buffer` for
one `(x, y)` pair: guard the flat index against the pixel-buffer length,
run the containment test on the re-normalized point, and on success do the
depth-tested write. -/
def Triangle3D.paint_pixel (t : Triangle3D ℚ) (projected : Triangle2D)
    (color_f : ℚ → ℚ → ℚ → ℕ) (buffer : PaintBuffer) (xy : ℕ × ℕ) :
    PaintBuffer :=
  let index := xy.1 + xy.2 * buffer.width
  if index ≥ buffer.pixel_buffer.length then buffer
  else
    let p : Point2D := ⟨(xy.1 : ℚ) / (buffer.width : ℚ), (xy.2 : ℚ) / (buffer.height : ℚ)⟩
    if projected.contains_point p then
      let w := projected.get_weights_at p
      let z := t.z_val w
      if (↑z : WithTop ℚ) < buffer.z_buffer.getD index ⊤ then
        { buffer with
            z_buffer := buffer.z_buffer.set index ↑z,
            pixel_buffer := buffer.pixel_buffer.set index (color_f w.1 w.2.1 w.2.2) }
      else buffer
    else buffer

/-- The `(x, y)` pairs visited by the nested `for y in range_y { for x in
range_x ... }` loops, `y` outer, `x` inner; an empty Rust range `a..b` with
`b ≤ a` iterates zero times. -/
def pixelList (range_x range_y : ℕ × ℕ) : List (ℕ × ℕ) :=
  (List.range' range_y.1 (range_y.2 - range_y.1)).flatMap fun y =>
    (List.range' range_x.1 (range_x.2 - range_x.1)).map fun x => (x, y)

/-- `Triangle3D::paint_to_buffer`: project, cull on `signed_area <= 0`,
then run the pixel loops over the pixel-space bounding box. -/
def Triangle3D.paint_to_buffer (t : Triangle3D ℚ) (buffer : PaintBuffer)
    (scene : Scene) (color_f : ℚ → ℚ → ℚ → ℕ) : PaintBuffer :=
  let projected := t.projected_triangle scene.camera
  if projected.signed_area ≤ 0 then buffer
  else
    let bb := projected.get_bounding_box_px buffer.width buffer.height
    (pixelList bb.1 bb.2).foldl (t.paint_pixel projected color_f) buffer

/-- The loop body of `Triangle2D::paint_to_buffer` for one `(x, y)` pair:
the write `buffer.pixel_buffer[index] = if contains { paint_value } else
{ 0x000000 }` is unguarded, so an out-of-range index is a panic, modelled
as `none`. -/
def Triangle2D.paint_pixel (t : Triangle2D) (paint_value : ℕ)
    (buffer : PaintBuffer) (xy : ℕ × ℕ) : Option PaintBuffer :=
  let index := xy.1 + xy.2 * buffer.width
  if index < buffer.pixel_buffer.length then
    let p : Point2D := ⟨(xy.1 : ℚ) / (buffer.width : ℚ), (xy.2 : ℚ) / (buffer.height : ℚ)⟩
    some { buffer with
      pixel_buffer :=
        buffer.pixel_buffer.set index (if t.contains_point p then paint_value else 0x000000) }
  else none

/-- `Triangle2D::paint_to_buffer`: cull on `signed_area <= 0`, then write
every pixel of the pixel-space bounding box, with no depth test and no
index bound check (`none` = panic on an out-of-range index). -/
def Triangle2D.paint_to_buffer (t : Triangle2D) (buffer : PaintBuffer)
    (paint_value : ℕ) : Option PaintBuffer :=
  if t.signed_area ≤ 0 then some buffer
  else
    let bb := t.get_bounding_box_px buffer.width buffer.height
    (pixelList bb.1 bb.2).foldlM (t.paint_pixel paint_value) buffer

/-- The per-pixel shading closure of `ColorTriangle::paint_to_buffer`
(lines 293-308): ambient `0.15` plus barycentric-interpolated diffuse and
specular terms, clamped to `[0, 1]`, scaled by the light's RGB channels,
each channel multiplied by `255.0` and cast `as u32`, packed as
`(r << 16) | (g << 8) | b`.  The six per-vertex scalars, which the source
captures from the enclosing function, are taken as parameters. -/
def ColorTriangle.color_closure (light : Light)
    (diff_brightness_a diff_brightness_b diff_brightness_c : ℚ)
    (spec_brightness_a spec_brightness_b spec_brightness_c : ℚ)
    (weight_a weight_b weight_c : ℚ) : ℕ :=
  let brightness0 := 15/100
    + (diff_brightness_a * weight_a + diff_brightness_b * weight_b + diff_brightness_c * weight_c)
    + (spec_brightness_a * weight_a + spec_brightness_b * weight_b + spec_brightness_c * weight_c)
  let brightness := min 1 (max 0 brightness0)
  let brightness_r := brightness * light.color.1
  let brightness_g := brightness * light.color.2.1
  let brightness_b := brightness * light.color.2.2
  let r := rustCastU32 (255 * brightness_r)
  let g := rustCastU32 (255 * brightness_g)
  let b := rustCastU32 (255 * brightness_b)
  ((r <<< 16) ||| (g <<< 8)) ||| b

/-- The spec's formula for the per-pixel shading function, stated from the
spec's words for comparison with `ColorTriangle.color_closure`: brightness
`0.15 + Σ diff_v * w_v + Σ spec_v * w_v` clamped to `[0, 1]`, each channel
`clamp(brightness * light.color_channel, 0, 1) * 255` truncated to an
integer, packed as `(r << 16) | (g << 8) | b`. -/
def specColorFormula (light : Light)
    (diff_brightness_a diff_brightness_b diff_brightness_c : ℚ)
    (spec_brightness_a spec_brightness_b spec_brightness_c : ℚ)
    (weight_a weight_b weight_c : ℚ) : ℕ :=
  let brightness := min 1 (max 0 (15/100
    + (diff_brightness_a * weight_a + diff_brightness_b * weight_b + diff_brightness_c * weight_c)
    + (spec_brightness_a * weight_a + spec_brightness_b * weight_b + spec_brightness_c * weight_c)))
  let r := rustCastU32 (min 1 (max 0 (brightness * light.color.1)) * 255)
  let g := rustCastU32 (min 1 (max 0 (brightness * light.color.2.1)) * 255)
  let b := rustCastU32 (min 1 (max 0 (brightness * light.color.2.2)) * 255)
  ((r <<< 16) ||| (g <<< 8)) ||| b

/-- Instrumentation of `Triangle3D::paint_to_buffer`: the list of flat
buffer indices at which the loop body touches `pixel_buffer` or `z_buffer`
(the depth read, the depth write and the color write all use the same
`index`; when the defensive guard skips, or the containment test fails, no
buffer element is touched). -/
def Triangle3D.paint_accesses (t : Triangle3D ℚ) (width height len : ℕ)
    (scene : Scene) : List ℕ :=
  let projected := t.projected_triangle scene.camera
  if projected.signed_area ≤ 0 then []
  else
    let bb := projected.get_bounding_box_px width height
    (pixelList bb.1 bb.2).flatMap fun xy =>
      let index := xy.1 + xy.2 * width
      if index ≥ len then []
      else
        let p : Point2D := ⟨(xy.1 : ℚ) / (width : ℚ), (xy.2 : ℚ) / (height : ℚ)⟩
        if projected.contains_point p then [index] else []

/-- Fixture: a camera at the origin (projection then reduces to
`(x/z, -y/z) + (0.5, 0.5)`). -/
def cam0 : Camera := ⟨⟨0, 0, 0⟩, ⟨0, 0, 1⟩⟩

/-- Fixture: a scene with the origin camera and a white light. -/
def scene0 : Scene := ⟨cam0, ⟨⟨0, 0, 0⟩, (1, 1, 1)⟩⟩

/-- Fixture: a 2×2 buffer with finite depth `100` everywhere and color `7`
everywhere. -/
def buf0 : PaintBuffer := ⟨2, 2, [100, 100, 100, 100], [7, 7, 7, 7]⟩

/-- Fixture: a color function constantly `1`. -/
def cf1 : ℚ → ℚ → ℚ → ℕ := fun _ _ _ => 1

/-- Fixture: a color function constantly `2`. -/
def cf2 : ℚ → ℚ → ℚ → ℕ := fun _ _ _ => 2

/-- Fixture: a triangle at constant camera depth `2` whose projection is
`(0, 0.4), (0.3, 0.5), (0, 0.6)` (front-facing, inside the unit square,
containing the screen point `(0, 1/2)`). -/
def T1c : Triangle3D ℚ :=
  ⟨⟨-1, 2/10, 2⟩, ⟨-4/10, 0, 2⟩, ⟨-1, -2/10, 2⟩⟩

/-- Fixture: a triangle whose projection is `(-0.1, -0.1), (1.1, -0.1),
(-0.1, 1.1)` (front-facing), with vertex depths `5.8, 1, 1`: its
interpolated depth at the screen point `(0, 1/2)` is `3` and at the screen
point `(1, 0)` is `1`.  Its pixel bounding box on a 2×2 buffer is
`x, y ∈ 0..3`, which sticks out past the buffer's right edge. -/
def T2c : Triangle3D ℚ :=
  ⟨⟨-348/100, 348/100, 58/10⟩, ⟨6/10, 6/10, 1⟩, ⟨-6/10, -6/10, 1⟩⟩

/-- Fixture: a triangle at constant camera depth `3` whose projection is
`(0, 0.45), (0.25, 0.5), (0, 0.55)` (front-facing, inside the unit square,
containing the screen point `(0, 1/2)`). -/
def T2w : Triangle3D ℚ :=
  ⟨⟨-3/2, 15/100, 3⟩, ⟨-3/4, 0, 3⟩, ⟨-3/2, -15/100, 3⟩⟩

/-- Fixture: `T1c` with its vertex order reversed, so its projection winds
the other way (`signed_area < 0`). -/
def T1rev : Triangle3D ℚ :=
  ⟨⟨-1, -2/10, 2⟩, ⟨-4/10, 0, 2⟩, ⟨-1, 2/10, 2⟩⟩

/-- Fixture: a camera at `(0, 0, -1)` (so camera-space depth differs from
world `z` by `1`). -/
def cam1x : Camera := ⟨⟨0, 0, -1⟩, ⟨0, 0, 1⟩⟩

/-- Fixture: a scene around `cam1x`. -/
def scene1x : Scene := ⟨cam1x, ⟨⟨0, 0, 0⟩, (1, 1, 1)⟩⟩

/-- Fixture: a front-facing triangle with all vertices at world `z = 1`
(camera-space depth `2` under `cam1x`) whose projection contains the
screen point `(0, 0)`. -/
def T1x : Triangle3D ℚ :=
  ⟨⟨-2, 2, 1⟩, ⟨2, 2, 1⟩, ⟨-2, -2, 1⟩⟩

/-- Fixture: a 1×1 buffer with finite depth `100` and color `7`. -/
def buf1x : PaintBuffer := ⟨1, 1, [100], [7]⟩

/-- Fixture: a screen-space triangle for `Triangle2D::paint_to_buffer`,
front-facing and inside the unit square. -/
def T2d : Triangle2D := ⟨⟨0, 4/10⟩, ⟨3/10, 1/2⟩, ⟨0, 6/10⟩⟩

/-- Fixture: the unit right screen triangle. -/
def triW : Triangle2D := ⟨⟨0, 0⟩, ⟨1, 0⟩, ⟨0, 1⟩⟩

/-- Fixture: a triangle with all vertices at world `z = 1`; under `cam1x`
(camera `z = -1`) its camera-space depth is `2` everywhere, and its
projection is `(0, 0.4), (0.3, 0.5), (0, 0.6)`, inside the unit square. -/
def T1y : Triangle3D ℚ :=
  ⟨⟨-1, 2/10, 1⟩, ⟨-4/10, 0, 1⟩, ⟨-1, -2/10, 1⟩⟩

/-- Fixture: the screen point of buffer pixel `(0, 1)` on `buf0`. -/
def pW : Point2D := ⟨((0 : ℕ) : ℚ) / (buf0.width : ℚ), ((1 : ℕ) : ℚ) / (buf0.height : ℚ)⟩

/-- Fixture: `T1c`'s barycentric weights at `pW`. -/
def w1W : ℚ × ℚ × ℚ := (T1c.projected_triangle scene0.camera).get_weights_at pW

/-- Fixture: `T2w`'s barycentric weights at `pW`. -/
def w2W : ℚ × ℚ × ℚ := (T2w.projected_triangle scene0.camera).get_weights_at pW

/-- Fixture: `T1c`'s interpolated depth at `pW` (equal to `2`). -/
def z1W : ℚ := T1c.z_val w1W

/-- Fixture: `T2w`'s interpolated depth at `pW` (equal to `3`). -/
def z2W : ℚ := T2w.z_val w2W

/-- The pair of buffer entries (color, depth) at a flat index, the state a
single pixel of a `PaintBuffer` is in. -/
def entriesAt (b : PaintBuffer) (j : ℕ) : ℕ × WithTop ℚ :=
  (b.pixel_buffer.getD j 0, b.z_buffer.getD j ⊤)

/-- Membership in a step-1 `List.range'`, in interval form. -/
theorem mem_range'_iff {s n m : ℕ} : m ∈ List.range' s n ↔ s ≤ m ∧ m < s + n := by
  rw [List.mem_range']
  constructor
  · rintro ⟨i, hi, rfl⟩; omega
  · intro h; exact ⟨m - s, by omega, by omega⟩

/-- Membership in the visited pixel list, in interval form. -/
theorem pixelList_mem {rx ry : ℕ × ℕ} {ab : ℕ × ℕ} :
    ab ∈ pixelList rx ry ↔
      rx.1 ≤ ab.1 ∧ ab.1 < rx.2 ∧ ry.1 ≤ ab.2 ∧ ab.2 < ry.2 := by
  obtain ⟨a, b⟩ := ab
  simp only [pixelList, List.mem_flatMap, List.mem_map, Prod.mk.injEq]
  constructor
  · rintro ⟨y, hy, x, hx, rfl, rfl⟩
    rw [mem_range'_iff] at hy hx
    omega
  · rintro ⟨h1, h2, h3, h4⟩
    exact ⟨b, by rw [mem_range'_iff]; omega, a, by rw [mem_range'_iff]; omega, rfl, rfl⟩

/-- Two flat indices `x + y * w` with `x < w` agree only for equal pixels. -/
theorem index_unique {w a b c d : ℕ} (ha : a < w) (hc : c < w)
    (h : a + b * w = c + d * w) : a = c ∧ b = d := by
  have hmod : (a + b * w) % w = a := by
    rw [Nat.add_mul_mod_self_right, Nat.mod_eq_of_lt ha]
  have hmod' : (c + d * w) % w = c := by
    rw [Nat.add_mul_mod_self_right, Nat.mod_eq_of_lt hc]
  have hac : a = c := by rw [← hmod, ← hmod', h]
  refine ⟨hac, ?_⟩
  have : b * w = d * w := by omega
  exact Nat.eq_of_mul_eq_mul_right (by omega) this

/-- The three sub-triangle edge functions sum to the whole-triangle edge
function, so the barycentric weights sum to `1` whenever the whole-triangle
edge function is nonzero. -/
theorem weights_sum_one (t : Triangle2D) (p : Point2D)
    (h : Triangle2D.edge_function t.a t.b t.c ≠ 0) :
    (t.get_weights_at p).1 + (t.get_weights_at p).2.1 + (t.get_weights_at p).2.2 = 1 := by
  obtain ⟨⟨ax, ay⟩, ⟨bx, b2⟩, ⟨cx, cy⟩⟩ := t
  obtain ⟨px, py⟩ := p
  simp only [Triangle2D.get_weights_at, Triangle2D.edge_function] at h ⊢
  field_simp
  ring

/-- C3, counterexample: on the triangle with vertices `(-2, 0)`, `(2, 0)`,
`(0, 3)`, `get_bounding_box` returns an x-range starting at `-2` and
ending at `2`, so the returned start is not clamped to `≥ 0` and the
returned end is not clamped to `≤ 1` as the claim states. -/
theorem C3_bbox_counterexample :
    ((⟨⟨-2, 0⟩, ⟨2, 0⟩, ⟨0, 3⟩⟩ : Triangle2D).get_bounding_box).1.1 = -2 ∧
    ((⟨⟨-2, 0⟩, ⟨2, 0⟩, ⟨0, 3⟩⟩ : Triangle2D).get_bounding_box).1.2 = 2 ∧
    ¬ (0 ≤ ((⟨⟨-2, 0⟩, ⟨2, 0⟩, ⟨0, 3⟩⟩ : Triangle2D).get_bounding_box).1.1 ∧
       ((⟨⟨-2, 0⟩, ⟨2, 0⟩, ⟨0, 3⟩⟩ : Triangle2D).get_bounding_box).1.2 ≤ 1) := by
  refine ⟨?_, ?_, ?_⟩ <;> with_unfolding_all decide

/-- C3, amended: `get_bounding_box` clamps the other way around: each
returned range's start is the minimum of `1` and the three vertex
coordinates (hence `≤ 1` and never above the true minimum), and each
returned range's end is the maximum of `0` and the three vertex
coordinates (hence `≥ 0` and never below the true maximum); the box is
only ever widened toward `[0, 1]`, never shrunk into it. -/
theorem C3_bounding_box_clamp (t : Triangle2D) :
    t.get_bounding_box.1.1 ≤ 1 ∧
    t.get_bounding_box.1.1 ≤ min (min t.a.x t.b.x) t.c.x ∧
    max (max t.a.x t.b.x) t.c.x ≤ t.get_bounding_box.1.2 ∧
    0 ≤ t.get_bounding_box.1.2 ∧
    t.get_bounding_box.2.1 ≤ 1 ∧
    t.get_bounding_box.2.1 ≤ min (min t.a.y t.b.y) t.c.y ∧
    max (max t.a.y t.b.y) t.c.y ≤ t.get_bounding_box.2.2 ∧
    0 ≤ t.get_bounding_box.2.2 := by
  simp only [Triangle2D.get_bounding_box]
  exact ⟨min_le_left _ _, min_le_right _ _, le_max_right _ _, le_max_left _ _,
    min_le_left _ _, min_le_right _ _, le_max_right _ _, le_max_left _ _⟩

/-- C4, counterexample: the depth buffer of `PaintBuffer::new 1 1` holds
`f64::MAX` at index `0`, which is not `+infinity` (`⊤`). -/
theorem C4_init_counterexample :
    (PaintBuffer.new 1 1).z_buffer.getD 0 ⊤ ≠ (⊤ : WithTop ℚ) := by
  simp [PaintBuffer.new]

/-- C4, amended: every depth entry of `PaintBuffer::new width height` is
the largest *finite* `f64` value `f64::MAX = (2^53 - 1) * 2^971`, not
`+infinity`; the buffer has `width * height` such entries. -/
theorem C4_zbuffer_init (width height i : ℕ) (hi : i < width * height) :
    (PaintBuffer.new width height).z_buffer.length = width * height ∧
    (PaintBuffer.new width height).z_buffer.getD i ⊤ = (↑f64MAX : WithTop ℚ) ∧
    (↑f64MAX : WithTop ℚ) ≠ ⊤ := by
  refine ⟨by simp [PaintBuffer.new], ?_, WithTop.coe_ne_top⟩
  simp [PaintBuffer.new, List.getD_eq_getElem?_getD, List.getElem?_replicate, hi]

/-- C4, witness for the amended theorem at `width = height = 1`, `i = 0`. -/
theorem C4_zbuffer_init_witness :
    0 < 1 * 1 ∧
    ((PaintBuffer.new 1 1).z_buffer.length = 1 * 1 ∧
     (PaintBuffer.new 1 1).z_buffer.getD 0 ⊤ = (↑f64MAX : WithTop ℚ) ∧
     (↑f64MAX : WithTop ℚ) ≠ ⊤) :=
  ⟨Nat.one_pos, C4_zbuffer_init 1 1 0 Nat.one_pos⟩

/-- C5: when the projected triangle's signed area is `≤ 0`,
`Triangle3D::paint_to_buffer` returns immediately and the buffer is left
completely unmodified. -/
theorem C5_backface_cull (t : Triangle3D ℚ) (buffer : PaintBuffer)
    (scene : Scene) (color_f : ℚ → ℚ → ℚ → ℕ)
    (h : (t.projected_triangle scene.camera).signed_area ≤ 0) :
    t.paint_to_buffer buffer scene color_f = buffer := by
  simp only [Triangle3D.paint_to_buffer, if_pos h]

/-- C5, witness: the order-reversed triangle `T1rev` projects with
negative signed area and painting it leaves `buf0` untouched. -/
theorem C5_backface_cull_witness :
    (T1rev.projected_triangle scene0.camera).signed_area ≤ 0 ∧
    T1rev.paint_to_buffer buf0 scene0 cf1 = buf0 :=
  ⟨by with_unfolding_all decide,
   C5_backface_cull T1rev buf0 scene0 cf1 (by with_unfolding_all decide)⟩

/-- C6: for every screen triangle whose whole-triangle edge function is
nonzero, the three weights of `get_weights_at` sum to exactly `1` at every
point; at the vertices `a`, `b`, `c` they are `(1,0,0)`, `(0,1,0)`,
`(0,0,1)`, and at the centroid they are `(1/3, 1/3, 1/3)`. -/
theorem C6_weights_sum (t : Triangle2D) (p : Point2D)
    (h : Triangle2D.edge_function t.a t.b t.c ≠ 0) :
    ((t.get_weights_at p).1 + (t.get_weights_at p).2.1 + (t.get_weights_at p).2.2 = 1) ∧
    t.get_weights_at t.a = (1, 0, 0) ∧
    t.get_weights_at t.b = (0, 1, 0) ∧
    t.get_weights_at t.c = (0, 0, 1) ∧
    t.get_weights_at ⟨(t.a.x + t.b.x + t.c.x) / 3, (t.a.y + t.b.y + t.c.y) / 3⟩
      = (1/3, 1/3, 1/3) := by
  refine ⟨weights_sum_one t p h, ?_, ?_, ?_, ?_⟩ <;>
  · obtain ⟨⟨ax, ay⟩, ⟨bx, b2⟩, ⟨cx, cy⟩⟩ := t
    simp only [Triangle2D.get_weights_at, Triangle2D.edge_function, Prod.mk.injEq] at h ⊢
    refine ⟨?_, ?_, ?_⟩ <;> field_simp <;> ring

/-- C6, witness at the unit right triangle and the point `(1/4, 1/4)`. -/
theorem C6_weights_sum_witness :
    Triangle2D.edge_function triW.a triW.b triW.c ≠ 0 ∧
    (((triW.get_weights_at ⟨1/4, 1/4⟩).1 + (triW.get_weights_at ⟨1/4, 1/4⟩).2.1 +
        (triW.get_weights_at ⟨1/4, 1/4⟩).2.2 = 1) ∧
      triW.get_weights_at triW.a = (1, 0, 0) ∧
      triW.get_weights_at triW.b = (0, 1, 0) ∧
      triW.get_weights_at triW.c = (0, 0, 1) ∧
      triW.get_weights_at ⟨(triW.a.x + triW.b.x + triW.c.x) / 3,
        (triW.a.y + triW.b.y + triW.c.y) / 3⟩ = (1/3, 1/3, 1/3)) :=
  ⟨by with_unfolding_all decide,
   C6_weights_sum triW ⟨1/4, 1/4⟩ (by with_unfolding_all decide)⟩

/-- Closed form of `Point3D::rotated_xz` in exact real arithmetic: the
polar round-trip through `atan2`/`sqrt` realizes the standard rotation
matrix on the `(x, z)` plane and passes `y` through. -/
theorem Point3D.rotated_xz_eq (p : Point3D ℝ) (r : ℝ) :
    p.rotated_xz r = ⟨p.x * Real.cos r - p.z * Real.sin r, p.y,
      p.x * Real.sin r + p.z * Real.cos r⟩ := by
  have habs : Real.sqrt (p.x ^ 2 + p.z ^ 2) = Complex.abs ⟨p.x, p.z⟩ := by
    rw [Complex.abs_apply, Complex.normSq_mk]
    norm_num [pow_two]
  have hc : Complex.abs ⟨p.x, p.z⟩ * Real.cos (Complex.arg ⟨p.x, p.z⟩) = p.x :=
    Complex.abs_mul_cos_arg _
  have hs : Complex.abs ⟨p.x, p.z⟩ * Real.sin (Complex.arg ⟨p.x, p.z⟩) = p.z :=
    Complex.abs_mul_sin_arg _
  simp only [Point3D.rotated_xz, habs, Real.cos_add, Real.sin_add, Point3D.mk.injEq]
  refine ⟨?_, trivial, ?_⟩
  · linear_combination Real.cos r * hc - Real.sin r * hs
  · linear_combination Real.sin r * hc + Real.cos r * hs

/-- C9: in exact real arithmetic, `rotated_xz(0)` is the identity on a
point, `rotated_xz(θ)` followed by `rotated_xz(-θ)` restores the original
point (in particular its `x` and `z`), and `rotated_xz` never changes the
`y` coordinate. -/
theorem C9_rotation (p : Point3D ℝ) (θ : ℝ) :
    p.rotated_xz 0 = p ∧ (p.rotated_xz θ).rotated_xz (-θ) = p ∧
    ∀ r : ℝ, (p.rotated_xz r).y = p.y := by
  obtain ⟨px, py, pz⟩ := p
  refine ⟨?_, ?_, fun r => rfl⟩
  · rw [Point3D.rotated_xz_eq]
    simp
  · rw [Point3D.rotated_xz_eq, Point3D.rotated_xz_eq]
    simp only [Real.cos_neg, Real.sin_neg, Point3D.mk.injEq]
    refine ⟨?_, trivial, ?_⟩
    · linear_combination px * Real.sin_sq_add_cos_sq θ
    · linear_combination pz * Real.sin_sq_add_cos_sq θ

/-- The inner clamp of the spec's channel formula is a no-op when both
factors lie in `[0, 1]`. -/
theorem clamp_channel_eq {b c : ℚ} (hb0 : 0 ≤ b) (hb1 : b ≤ 1)
    (hc0 : 0 ≤ c) (hc1 : c ≤ 1) :
    min 1 (max 0 (b * c)) * 255 = 255 * (b * c) := by
  rw [max_eq_right (mul_nonneg hb0 hc0), min_eq_right (mul_le_one₀ hb1 hc0 hc1),
    mul_comm]

/-- The saturating cast keeps values from `[0, 255]` below `256`. -/
theorem rustCastU32_le {q : ℚ} (h : q ≤ 255) : rustCastU32 q ≤ 255 := by
  have h1 : ⌊q⌋ ≤ 255 := by
    have := Int.floor_le_floor (α := ℚ) h
    simpa using this
  have h2 : Int.toNat ⌊q⌋ ≤ 255 := by omega
  exact le_trans (min_le_left _ _) h2

/-- Bitwise or of two values below a power of two stays below it. -/
theorem lor_lt_two_pow {n x y : ℕ} (hx : x < 2 ^ n) (hy : y < 2 ^ n) :
    x ||| y < 2 ^ n :=
  Nat.bitwise_lt hx hy

/-- C8: for a light whose channels lie in `[0, 1]` and arbitrary
per-vertex scalars and weights, the per-pixel color of `ColorTriangle`'s
shading closure equals the spec formula (brightness `0.15 + Σ diff_v*w_v +
Σ spec_v*w_v` clamped to `[0,1]`, channel `clamp(brightness*c, 0, 1)*255`
truncated, packed `(r<<16)|(g<<8)|b`), and every produced color is below
`2^24`, so its most significant byte is zero. -/
theorem C8_shading (light : Light)
    (h1 : 0 ≤ light.color.1) (h2 : light.color.1 ≤ 1)
    (h3 : 0 ≤ light.color.2.1) (h4 : light.color.2.1 ≤ 1)
    (h5 : 0 ≤ light.color.2.2) (h6 : light.color.2.2 ≤ 1)
    (d_a d_b d_c s_a s_b s_c w_a w_b w_c : ℚ) :
    ColorTriangle.color_closure light d_a d_b d_c s_a s_b s_c w_a w_b w_c =
      specColorFormula light d_a d_b d_c s_a s_b s_c w_a w_b w_c ∧
    ColorTriangle.color_closure light d_a d_b d_c s_a s_b s_c w_a w_b w_c < 2 ^ 24 := by
  have hb0 : (0 : ℚ) ≤ min 1 (max 0 (15/100
      + (d_a * w_a + d_b * w_b + d_c * w_c)
      + (s_a * w_a + s_b * w_b + s_c * w_c))) :=
    le_min (by norm_num) (le_max_left _ _)
  have hb1 : min 1 (max 0 (15/100
      + (d_a * w_a + d_b * w_b + d_c * w_c)
      + (s_a * w_a + s_b * w_b + s_c * w_c))) ≤ (1 : ℚ) := min_le_left _ _
  constructor
  · simp only [ColorTriangle.color_closure, specColorFormula]
    rw [clamp_channel_eq hb0 hb1 h1 h2, clamp_channel_eq hb0 hb1 h3 h4,
      clamp_channel_eq hb0 hb1 h5 h6]
  · simp only [ColorTriangle.color_closure]
    have hr : rustCastU32 (255 * (min 1 (max 0 (15/100
        + (d_a * w_a + d_b * w_b + d_c * w_c)
        + (s_a * w_a + s_b * w_b + s_c * w_c))) * light.color.1)) ≤ 255 :=
      rustCastU32_le (by nlinarith)
    have hg : rustCastU32 (255 * (min 1 (max 0 (15/100
        + (d_a * w_a + d_b * w_b + d_c * w_c)
        + (s_a * w_a + s_b * w_b + s_c * w_c))) * light.color.2.1)) ≤ 255 :=
      rustCastU32_le (by nlinarith)
    have hb : rustCastU32 (255 * (min 1 (max 0 (15/100
        + (d_a * w_a + d_b * w_b + d_c * w_c)
        + (s_a * w_a + s_b * w_b + s_c * w_c))) * light.color.2.2)) ≤ 255 :=
      rustCastU32_le (by nlinarith)
    refine lor_lt_two_pow (lor_lt_two_pow ?_ ?_) ?_
    · rw [Nat.shiftLeft_eq]; omega
    · rw [Nat.shiftLeft_eq]; omega
    · omega

/-- C8, witness at the light with channels `(1/2, 1, 0)`, diffuse scalars
`(1, 0, 0)`, zero specular scalars, and weights `(1/3, 1/3, 1/3)`. -/
theorem C8_shading_witness :
    (0 ≤ (Light.mk ⟨0, 0, 0⟩ (1/2, 1, 0)).color.1 ∧
     (Light.mk ⟨0, 0, 0⟩ (1/2, 1, 0)).color.1 ≤ 1 ∧
     0 ≤ (Light.mk ⟨0, 0, 0⟩ (1/2, 1, 0)).color.2.1 ∧
     (Light.mk ⟨0, 0, 0⟩ (1/2, 1, 0)).color.2.1 ≤ 1 ∧
     0 ≤ (Light.mk ⟨0, 0, 0⟩ (1/2, 1, 0)).color.2.2 ∧
     (Light.mk ⟨0, 0, 0⟩ (1/2, 1, 0)).color.2.2 ≤ 1) ∧
    (ColorTriangle.color_closure (Light.mk ⟨0, 0, 0⟩ (1/2, 1, 0))
        1 0 0 0 0 0 (1/3) (1/3) (1/3) =
      specColorFormula (Light.mk ⟨0, 0, 0⟩ (1/2, 1, 0))
        1 0 0 0 0 0 (1/3) (1/3) (1/3) ∧
     ColorTriangle.color_closure (Light.mk ⟨0, 0, 0⟩ (1/2, 1, 0))
        1 0 0 0 0 0 (1/3) (1/3) (1/3) < 2 ^ 24) :=
  ⟨⟨by with_unfolding_all decide, by with_unfolding_all decide,
    by with_unfolding_all decide, by with_unfolding_all decide,
    by with_unfolding_all decide, by with_unfolding_all decide⟩,
   C8_shading (Light.mk ⟨0, 0, 0⟩ (1/2, 1, 0))
     (by with_unfolding_all decide) (by with_unfolding_all decide)
     (by with_unfolding_all decide) (by with_unfolding_all decide)
     (by with_unfolding_all decide) (by with_unfolding_all decide)
     1 0 0 0 0 0 (1/3) (1/3) (1/3)⟩

/-- One pixel step preserves the buffer's width. -/
theorem paint_pixel_width (t : Triangle3D ℚ) (proj : Triangle2D)
    (cf : ℚ → ℚ → ℚ → ℕ) (buf : PaintBuffer) (xy : ℕ × ℕ) :
    (t.paint_pixel proj cf buf xy).width = buf.width := by
  simp only [Triangle3D.paint_pixel]
  split_ifs <;> rfl

/-- One pixel step preserves the buffer's height. -/
theorem paint_pixel_height (t : Triangle3D ℚ) (proj : Triangle2D)
    (cf : ℚ → ℚ → ℚ → ℕ) (buf : PaintBuffer) (xy : ℕ × ℕ) :
    (t.paint_pixel proj cf buf xy).height = buf.height := by
  simp only [Triangle3D.paint_pixel]
  split_ifs <;> rfl

/-- One pixel step preserves the length of the pixel buffer. -/
theorem paint_pixel_pixel_length (t : Triangle3D ℚ) (proj : Triangle2D)
    (cf : ℚ → ℚ → ℚ → ℕ) (buf : PaintBuffer) (xy : ℕ × ℕ) :
    (t.paint_pixel proj cf buf xy).pixel_buffer.length = buf.pixel_buffer.length := by
  simp only [Triangle3D.paint_pixel]
  split_ifs <;> simp

/-- One pixel step preserves the length of the depth buffer. -/
theorem paint_pixel_z_length (t : Triangle3D ℚ) (proj : Triangle2D)
    (cf : ℚ → ℚ → ℚ → ℕ) (buf : PaintBuffer) (xy : ℕ × ℕ) :
    (t.paint_pixel proj cf buf xy).z_buffer.length = buf.z_buffer.length := by
  simp only [Triangle3D.paint_pixel]
  split_ifs <;> simp

/-- One pixel step only ever touches the entry at its own flat index. -/
theorem paint_pixel_entriesAt_ne (t : Triangle3D ℚ) (proj : Triangle2D)
    (cf : ℚ → ℚ → ℚ → ℕ) (buf : PaintBuffer) (xy : ℕ × ℕ) {j : ℕ}
    (h : xy.1 + xy.2 * buf.width ≠ j) :
    entriesAt (t.paint_pixel proj cf buf xy) j = entriesAt buf j := by
  simp only [Triangle3D.paint_pixel, entriesAt]
  split_ifs <;>
    simp [List.getD_eq_getElem?_getD, List.getElem?_set_ne h]

/-- Characterization of one pixel step at its own flat index: when the
containment test and the strict depth test both pass, the entry becomes
the new color and depth; otherwise it is unchanged. -/
theorem paint_pixel_entriesAt_eq (t : Triangle3D ℚ) (proj : Triangle2D)
    (cf : ℚ → ℚ → ℚ → ℕ) (buf : PaintBuffer) (xy : ℕ × ℕ) {j : ℕ}
    (hidx : xy.1 + xy.2 * buf.width = j)
    (hj : j < buf.pixel_buffer.length) (hjz : j < buf.z_buffer.length) :
    entriesAt (t.paint_pixel proj cf buf xy) j =
      if proj.contains_point ⟨(xy.1 : ℚ) / buf.width, (xy.2 : ℚ) / buf.height⟩ ∧
          (↑(t.z_val (proj.get_weights_at
              ⟨(xy.1 : ℚ) / buf.width, (xy.2 : ℚ) / buf.height⟩)) : WithTop ℚ)
            < buf.z_buffer.getD j ⊤ then
        (cf (proj.get_weights_at ⟨(xy.1 : ℚ) / buf.width, (xy.2 : ℚ) / buf.height⟩).1
           (proj.get_weights_at ⟨(xy.1 : ℚ) / buf.width, (xy.2 : ℚ) / buf.height⟩).2.1
           (proj.get_weights_at ⟨(xy.1 : ℚ) / buf.width, (xy.2 : ℚ) / buf.height⟩).2.2,
         ↑(t.z_val (proj.get_weights_at
             ⟨(xy.1 : ℚ) / buf.width, (xy.2 : ℚ) / buf.height⟩)))
      else entriesAt buf j := by
  subst hidx
  simp only [Triangle3D.paint_pixel, entriesAt]
  rw [if_neg (by omega)]
  by_cases hc : proj.contains_point
      ⟨(xy.1 : ℚ) / buf.width, (xy.2 : ℚ) / buf.height⟩
  · rw [if_pos hc]
    by_cases hz : (↑(t.z_val (proj.get_weights_at
          ⟨(xy.1 : ℚ) / buf.width, (xy.2 : ℚ) / buf.height⟩)) : WithTop ℚ)
        < buf.z_buffer.getD (xy.1 + xy.2 * buf.width) ⊤
    · rw [if_pos hz, if_pos ⟨hc, hz⟩]
      simp [List.getD_eq_getElem?_getD, List.getElem?_set_self, hj, hjz]
    · rw [if_neg hz, if_neg (by tauto)]
  · rw [if_neg (by simp [hc]), if_neg (by tauto)]

/-- The effect of one pixel step at its own flat index depends only on the
dimensions, lengths, and the entry at that index. -/
theorem paint_pixel_entriesAt_congr (t : Triangle3D ℚ) (proj : Triangle2D)
    (cf : ℚ → ℚ → ℚ → ℕ) (buf1 buf2 : PaintBuffer) (xy : ℕ × ℕ) {j : ℕ}
    (hw : buf1.width = buf2.width) (hh : buf1.height = buf2.height)
    (hl : buf1.pixel_buffer.length = buf2.pixel_buffer.length)
    (hlz : buf1.z_buffer.length = buf2.z_buffer.length)
    (he : entriesAt buf1 j = entriesAt buf2 j)
    (hidx : xy.1 + xy.2 * buf1.width = j)
    (hj : j < buf1.pixel_buffer.length) (hjz : j < buf1.z_buffer.length) :
    entriesAt (t.paint_pixel proj cf buf1 xy) j =
      entriesAt (t.paint_pixel proj cf buf2 xy) j := by
  have hz12 : buf1.z_buffer.getD j ⊤ = buf2.z_buffer.getD j ⊤ :=
    congrArg Prod.snd he
  rw [paint_pixel_entriesAt_eq t proj cf buf1 xy hidx hj hjz,
    paint_pixel_entriesAt_eq t proj cf buf2 xy (by rw [← hw]; exact hidx)
      (by rw [← hl]; exact hj) (by rw [← hlz]; exact hjz)]
  rw [hw, hh, hz12, he]

/-- Painting the same pixel twice leaves the entry as after the first
step: a repeated write is stopped by the strict depth test. -/
theorem paint_pixel_entriesAt_idem (t : Triangle3D ℚ) (proj : Triangle2D)
    (cf : ℚ → ℚ → ℚ → ℕ) (buf : PaintBuffer) (xy : ℕ × ℕ) {j : ℕ}
    (hidx : xy.1 + xy.2 * buf.width = j)
    (hj : j < buf.pixel_buffer.length) (hjz : j < buf.z_buffer.length) :
    entriesAt (t.paint_pixel proj cf (t.paint_pixel proj cf buf xy) xy) j =
      entriesAt (t.paint_pixel proj cf buf xy) j := by
  subst hidx
  have hw := paint_pixel_width t proj cf buf xy
  have hh := paint_pixel_height t proj cf buf xy
  have hl := paint_pixel_pixel_length t proj cf buf xy
  have hlz := paint_pixel_z_length t proj cf buf xy
  have h1 := paint_pixel_entriesAt_eq t proj cf buf xy rfl hj hjz
  have h2 := paint_pixel_entriesAt_eq t proj cf (t.paint_pixel proj cf buf xy) xy
    (j := xy.1 + xy.2 * buf.width) (by rw [hw]) (by rw [hl]; exact hj)
    (by rw [hlz]; exact hjz)
  rw [h2, hw, hh]
  by_cases hc : proj.contains_point
      ⟨(xy.1 : ℚ) / buf.width, (xy.2 : ℚ) / buf.height⟩
  · by_cases hz : (↑(t.z_val (proj.get_weights_at
          ⟨(xy.1 : ℚ) / buf.width, (xy.2 : ℚ) / buf.height⟩)) : WithTop ℚ)
        < buf.z_buffer.getD (xy.1 + xy.2 * buf.width) ⊤
    · rw [if_pos ⟨hc, hz⟩] at h1
      have hznew : (t.paint_pixel proj cf buf xy).z_buffer.getD (xy.1 + xy.2 * buf.width) ⊤ =
          ↑(t.z_val (proj.get_weights_at
            ⟨(xy.1 : ℚ) / buf.width, (xy.2 : ℚ) / buf.height⟩)) :=
        congrArg Prod.snd h1
      rw [if_neg (by rw [hznew]; exact fun h => lt_irrefl _ h.2)]
    · have hkeep : entriesAt (t.paint_pixel proj cf buf xy) (xy.1 + xy.2 * buf.width) = entriesAt buf (xy.1 + xy.2 * buf.width) := by
        rw [h1, if_neg (by tauto)]
      have hzold : (t.paint_pixel proj cf buf xy).z_buffer.getD (xy.1 + xy.2 * buf.width) ⊤ =
          buf.z_buffer.getD (xy.1 + xy.2 * buf.width) ⊤ := congrArg Prod.snd hkeep
      rw [if_neg (by rw [hzold]; tauto), hkeep]
  · have hkeep : entriesAt (t.paint_pixel proj cf buf xy) (xy.1 + xy.2 * buf.width) = entriesAt buf (xy.1 + xy.2 * buf.width) := by
      rw [h1, if_neg (by tauto)]
    rw [if_neg (by tauto), hkeep]

/-- The pixel loop preserves dimensions and buffer lengths. -/
theorem foldl_paint_dims (t : Triangle3D ℚ) (proj : Triangle2D)
    (cf : ℚ → ℚ → ℚ → ℕ) (l : List (ℕ × ℕ)) (buf : PaintBuffer) :
    (l.foldl (t.paint_pixel proj cf) buf).width = buf.width ∧
    (l.foldl (t.paint_pixel proj cf) buf).height = buf.height ∧
    (l.foldl (t.paint_pixel proj cf) buf).pixel_buffer.length = buf.pixel_buffer.length ∧
    (l.foldl (t.paint_pixel proj cf) buf).z_buffer.length = buf.z_buffer.length := by
  induction l generalizing buf with
  | nil => exact ⟨rfl, rfl, rfl, rfl⟩
  | cons a l ih =>
    simp only [List.foldl_cons]
    refine ⟨?_, ?_, ?_, ?_⟩
    · rw [(ih (t.paint_pixel proj cf buf a)).1, paint_pixel_width]
    · rw [(ih (t.paint_pixel proj cf buf a)).2.1, paint_pixel_height]
    · rw [(ih (t.paint_pixel proj cf buf a)).2.2.1, paint_pixel_pixel_length]
    · rw [(ih (t.paint_pixel proj cf buf a)).2.2.2, paint_pixel_z_length]

/-- The pixel loop at a flat index whose only possible source pixel is
`xy`: if `xy` is visited the entry ends up as after a single step on the
initial buffer, otherwise it is untouched.  (Duplicates of `xy` itself are
harmless because a repeated write is stopped by the strict depth test.) -/
theorem foldl_paint_entriesAt (t : Triangle3D ℚ) (proj : Triangle2D)
    (cf : ℚ → ℚ → ℚ → ℕ) (l : List (ℕ × ℕ)) (buf : PaintBuffer)
    (xy : ℕ × ℕ) {j : ℕ}
    (huniq : ∀ ab ∈ l, ab.1 + ab.2 * buf.width = j → ab = xy)
    (hidx : xy.1 + xy.2 * buf.width = j)
    (hj : j < buf.pixel_buffer.length) (hjz : j < buf.z_buffer.length) :
    entriesAt (l.foldl (t.paint_pixel proj cf) buf) j =
      if xy ∈ l then entriesAt (t.paint_pixel proj cf buf xy) j
      else entriesAt buf j := by
  induction l generalizing buf with
  | nil => simp
  | cons a l ih =>
    have hw := paint_pixel_width t proj cf buf a
    have hh := paint_pixel_height t proj cf buf a
    have hl := paint_pixel_pixel_length t proj cf buf a
    have hlz := paint_pixel_z_length t proj cf buf a
    simp only [List.foldl_cons]
    by_cases ha : a = xy
    · subst ha
      have ih' := ih (t.paint_pixel proj cf buf a)
        (fun ab hab hab2 => huniq ab (List.mem_cons_of_mem a hab)
          (by rw [← hab2, hw]))
        (by rw [hw]; exact hidx) (by rw [hl]; exact hj) (by rw [hlz]; exact hjz)
      rw [ih', if_pos (List.mem_cons_self a l)]
      by_cases hm : a ∈ l
      · rw [if_pos hm]
        exact paint_pixel_entriesAt_idem t proj cf buf a hidx hj hjz
      · rw [if_neg hm]
    · have hane : a.1 + a.2 * buf.width ≠ j := fun hcon =>
        ha (huniq a (List.mem_cons_self a l) hcon)
      have hkeep : entriesAt (t.paint_pixel proj cf buf a) j = entriesAt buf j :=
        paint_pixel_entriesAt_ne t proj cf buf a hane
      have ih' := ih (t.paint_pixel proj cf buf a)
        (fun ab hab hab2 => huniq ab (List.mem_cons_of_mem a hab)
          (by rw [← hab2, hw]))
        (by rw [hw]; exact hidx) (by rw [hl]; exact hj) (by rw [hlz]; exact hjz)
      rw [ih']
      have hmem : (xy ∈ a :: l) ↔ (xy ∈ l) := by
        rw [List.mem_cons]
        exact ⟨fun h => h.elim (fun h1 => absurd h1.symm ha) id, Or.inr⟩
      by_cases hm : xy ∈ l
      · rw [if_pos hm, if_pos (hmem.mpr hm)]
        exact paint_pixel_entriesAt_congr t proj cf
          (t.paint_pixel proj cf buf a) buf xy hw hh hl hlz hkeep
          (by rw [hw]; exact hidx) (by rw [hl]; exact hj) (by rw [hlz]; exact hjz)
      · rw [if_neg hm, if_neg (fun h => hm (hmem.mp h)), hkeep]

/-- `Triangle3D::paint_to_buffer` preserves dimensions and lengths. -/
theorem paint_to_buffer_dims (t : Triangle3D ℚ) (buf : PaintBuffer)
    (scene : Scene) (cf : ℚ → ℚ → ℚ → ℕ) :
    (t.paint_to_buffer buf scene cf).width = buf.width ∧
    (t.paint_to_buffer buf scene cf).height = buf.height ∧
    (t.paint_to_buffer buf scene cf).pixel_buffer.length = buf.pixel_buffer.length ∧
    (t.paint_to_buffer buf scene cf).z_buffer.length = buf.z_buffer.length := by
  simp only [Triangle3D.paint_to_buffer]
  split_ifs
  · exact ⟨rfl, rfl, rfl, rfl⟩
  · exact foldl_paint_dims t _ cf _ buf

/-- Per-pixel characterization of `Triangle3D::paint_to_buffer` at a
buffer pixel `(x, y)` of the bounding box, when the box does not stick out
past the right buffer edge: the entry is overwritten with the interpolated
depth and the produced color exactly when the containment test and the
strict depth test pass, and is untouched otherwise. -/
theorem paint_to_buffer_entriesAt (t : Triangle3D ℚ) (buf : PaintBuffer)
    (scene : Scene) (cf : ℚ → ℚ → ℚ → ℕ) (x y : ℕ)
    (hp : buf.pixel_buffer.length = buf.width * buf.height)
    (hzl : buf.z_buffer.length = buf.width * buf.height)
    (hcull : ¬ (t.projected_triangle scene.camera).signed_area ≤ 0)
    (hx1 : ((t.projected_triangle scene.camera).get_bounding_box_px buf.width buf.height).1.1 ≤ x)
    (hx2 : x < ((t.projected_triangle scene.camera).get_bounding_box_px buf.width buf.height).1.2)
    (hy1 : ((t.projected_triangle scene.camera).get_bounding_box_px buf.width buf.height).2.1 ≤ y)
    (hy2 : y < ((t.projected_triangle scene.camera).get_bounding_box_px buf.width buf.height).2.2)
    (hxw : ((t.projected_triangle scene.camera).get_bounding_box_px buf.width buf.height).1.2 ≤ buf.width)
    (hyh : y < buf.height) :
    entriesAt (t.paint_to_buffer buf scene cf) (x + y * buf.width) =
      if (t.projected_triangle scene.camera).contains_point
            ⟨(x : ℚ) / buf.width, (y : ℚ) / buf.height⟩ ∧
          (↑(t.z_val ((t.projected_triangle scene.camera).get_weights_at
              ⟨(x : ℚ) / buf.width, (y : ℚ) / buf.height⟩)) : WithTop ℚ)
            < buf.z_buffer.getD (x + y * buf.width) ⊤ then
        (cf ((t.projected_triangle scene.camera).get_weights_at
              ⟨(x : ℚ) / buf.width, (y : ℚ) / buf.height⟩).1
            ((t.projected_triangle scene.camera).get_weights_at
              ⟨(x : ℚ) / buf.width, (y : ℚ) / buf.height⟩).2.1
            ((t.projected_triangle scene.camera).get_weights_at
              ⟨(x : ℚ) / buf.width, (y : ℚ) / buf.height⟩).2.2,
         ↑(t.z_val ((t.projected_triangle scene.camera).get_weights_at
             ⟨(x : ℚ) / buf.width, (y : ℚ) / buf.height⟩)))
      else entriesAt buf (x + y * buf.width) := by
  have hxlt : x < buf.width := lt_of_lt_of_le hx2 hxw
  have hjlt : x + y * buf.width < buf.width * buf.height := by
    have h1 : x + y * buf.width < (y + 1) * buf.width := by
      rw [add_mul, one_mul]; omega
    have h2 : (y + 1) * buf.width ≤ buf.height * buf.width :=
      Nat.mul_le_mul_right _ (by omega)
    calc x + y * buf.width < (y + 1) * buf.width := h1
      _ ≤ buf.height * buf.width := h2
      _ = buf.width * buf.height := Nat.mul_comm _ _
  have hfold := foldl_paint_entriesAt t (t.projected_triangle scene.camera) cf
    (pixelList
      ((t.projected_triangle scene.camera).get_bounding_box_px buf.width buf.height).1
      ((t.projected_triangle scene.camera).get_bounding_box_px buf.width buf.height).2)
    buf (x, y)
    (j := x + y * buf.width)
    (by
      intro ab hab hab2
      rw [pixelList_mem] at hab
      have ha1 : ab.1 < buf.width := lt_of_lt_of_le hab.2.1 hxw
      have := index_unique ha1 hxlt hab2
      exact Prod.ext this.1 this.2)
    rfl (by rw [hp]; exact hjlt) (by rw [hzl]; exact hjlt)
  have hmem : (x, y) ∈ pixelList
      ((t.projected_triangle scene.camera).get_bounding_box_px buf.width buf.height).1
      ((t.projected_triangle scene.camera).get_bounding_box_px buf.width buf.height).2 := by
    rw [pixelList_mem]
    exact ⟨hx1, hx2, hy1, hy2⟩
  have hchar := paint_pixel_entriesAt_eq t (t.projected_triangle scene.camera) cf buf (x, y)
    (j := x + y * buf.width) rfl (by rw [hp]; exact hjlt) (by rw [hzl]; exact hjlt)
  simp only [Triangle3D.paint_to_buffer]
  rw [if_neg hcull]
  rw [hfold, if_pos hmem, hchar]

/-- Write case of the per-pixel characterization: containment and strict
depth test pass, so the pixel receives the produced color and the
interpolated depth. -/
theorem paint_to_buffer_write (t : Triangle3D ℚ) (buf : PaintBuffer)
    (scene : Scene) (cf : ℚ → ℚ → ℚ → ℕ) (x y : ℕ)
    (hp : buf.pixel_buffer.length = buf.width * buf.height)
    (hzl : buf.z_buffer.length = buf.width * buf.height)
    (hcull : ¬ (t.projected_triangle scene.camera).signed_area ≤ 0)
    (hx1 : ((t.projected_triangle scene.camera).get_bounding_box_px buf.width buf.height).1.1 ≤ x)
    (hx2 : x < ((t.projected_triangle scene.camera).get_bounding_box_px buf.width buf.height).1.2)
    (hy1 : ((t.projected_triangle scene.camera).get_bounding_box_px buf.width buf.height).2.1 ≤ y)
    (hy2 : y < ((t.projected_triangle scene.camera).get_bounding_box_px buf.width buf.height).2.2)
    (hxw : ((t.projected_triangle scene.camera).get_bounding_box_px buf.width buf.height).1.2 ≤ buf.width)
    (hyh : y < buf.height)
    (hc : (t.projected_triangle scene.camera).contains_point
      ⟨(x : ℚ) / buf.width, (y : ℚ) / buf.height⟩ = true)
    (hz : (↑(t.z_val ((t.projected_triangle scene.camera).get_weights_at
        ⟨(x : ℚ) / buf.width, (y : ℚ) / buf.height⟩)) : WithTop ℚ)
        < buf.z_buffer.getD (x + y * buf.width) ⊤) :
    entriesAt (t.paint_to_buffer buf scene cf) (x + y * buf.width) =
      (cf ((t.projected_triangle scene.camera).get_weights_at
            ⟨(x : ℚ) / buf.width, (y : ℚ) / buf.height⟩).1
          ((t.projected_triangle scene.camera).get_weights_at
            ⟨(x : ℚ) / buf.width, (y : ℚ) / buf.height⟩).2.1
          ((t.projected_triangle scene.camera).get_weights_at
            ⟨(x : ℚ) / buf.width, (y : ℚ) / buf.height⟩).2.2,
       ↑(t.z_val ((t.projected_triangle scene.camera).get_weights_at
           ⟨(x : ℚ) / buf.width, (y : ℚ) / buf.height⟩))) := by
  rw [paint_to_buffer_entriesAt t buf scene cf x y hp hzl hcull hx1 hx2 hy1 hy2 hxw hyh,
    if_pos ⟨hc, hz⟩]

/-- Keep case of the per-pixel characterization: when the strict depth
test fails, the pixel keeps its color and depth. -/
theorem paint_to_buffer_keep (t : Triangle3D ℚ) (buf : PaintBuffer)
    (scene : Scene) (cf : ℚ → ℚ → ℚ → ℕ) (x y : ℕ)
    (hp : buf.pixel_buffer.length = buf.width * buf.height)
    (hzl : buf.z_buffer.length = buf.width * buf.height)
    (hcull : ¬ (t.projected_triangle scene.camera).signed_area ≤ 0)
    (hx1 : ((t.projected_triangle scene.camera).get_bounding_box_px buf.width buf.height).1.1 ≤ x)
    (hx2 : x < ((t.projected_triangle scene.camera).get_bounding_box_px buf.width buf.height).1.2)
    (hy1 : ((t.projected_triangle scene.camera).get_bounding_box_px buf.width buf.height).2.1 ≤ y)
    (hy2 : y < ((t.projected_triangle scene.camera).get_bounding_box_px buf.width buf.height).2.2)
    (hxw : ((t.projected_triangle scene.camera).get_bounding_box_px buf.width buf.height).1.2 ≤ buf.width)
    (hyh : y < buf.height)
    (hz : ¬ (↑(t.z_val ((t.projected_triangle scene.camera).get_weights_at
        ⟨(x : ℚ) / buf.width, (y : ℚ) / buf.height⟩)) : WithTop ℚ)
        < buf.z_buffer.getD (x + y * buf.width) ⊤) :
    entriesAt (t.paint_to_buffer buf scene cf) (x + y * buf.width) =
      entriesAt buf (x + y * buf.width) := by
  rw [paint_to_buffer_entriesAt t buf scene cf x y hp hzl hcull hx1 hx2 hy1 hy2 hxw hyh,
    if_neg (fun h => hz h.2)]

/-- C1, counterexample: the camera sits at `(0, 0, -1)` and the triangle
`T1x` has all vertices at world `z = 1`, so its camera-space depth is `2`
everywhere; but `paint_to_buffer` stores depth `1` (the untranslated
vertex `z`), which differs from the interpolated camera-space depth. -/
theorem C1_depth_counterexample :
    (T1x.paint_to_buffer buf1x scene1x cf1).z_buffer.getD 0 ⊤ = ((1 : ℚ) : WithTop ℚ) ∧
    (T1x.translated_triangle scene1x.camera).z_val
      ((T1x.projected_triangle scene1x.camera).get_weights_at ⟨0, 0⟩) = 2 ∧
    ((1 : ℚ) : WithTop ℚ) ≠ ((2 : ℚ) : WithTop ℚ) := by
  refine ⟨?_, ?_, ?_⟩ <;> with_unfolding_all decide

/-- C1, amended: for every pixel that passes the containment and depth
tests, the depth `paint_to_buffer` stores is interpolated from the
*untranslated* vertex `z` coordinates (`self.a.z` etc. in the source); it
equals the camera-space interpolated depth plus the constant
`camera.position.z`, because the barycentric weights sum to one. -/
theorem C1_depth_world_space (t : Triangle3D ℚ) (buf : PaintBuffer)
    (scene : Scene) (cf : ℚ → ℚ → ℚ → ℕ) (x y : ℕ)
    (hp : buf.pixel_buffer.length = buf.width * buf.height)
    (hzl : buf.z_buffer.length = buf.width * buf.height)
    (hcull : ¬ (t.projected_triangle scene.camera).signed_area ≤ 0)
    (hx1 : ((t.projected_triangle scene.camera).get_bounding_box_px buf.width buf.height).1.1 ≤ x)
    (hx2 : x < ((t.projected_triangle scene.camera).get_bounding_box_px buf.width buf.height).1.2)
    (hy1 : ((t.projected_triangle scene.camera).get_bounding_box_px buf.width buf.height).2.1 ≤ y)
    (hy2 : y < ((t.projected_triangle scene.camera).get_bounding_box_px buf.width buf.height).2.2)
    (hxw : ((t.projected_triangle scene.camera).get_bounding_box_px buf.width buf.height).1.2 ≤ buf.width)
    (hyh : y < buf.height)
    (hc : (t.projected_triangle scene.camera).contains_point
      ⟨(x : ℚ) / buf.width, (y : ℚ) / buf.height⟩ = true)
    (hz : (↑(t.z_val ((t.projected_triangle scene.camera).get_weights_at
        ⟨(x : ℚ) / buf.width, (y : ℚ) / buf.height⟩)) : WithTop ℚ)
        < buf.z_buffer.getD (x + y * buf.width) ⊤) :
    (t.paint_to_buffer buf scene cf).z_buffer.getD (x + y * buf.width) ⊤ =
      ↑(t.z_val ((t.projected_triangle scene.camera).get_weights_at
        ⟨(x : ℚ) / buf.width, (y : ℚ) / buf.height⟩)) ∧
    t.z_val ((t.projected_triangle scene.camera).get_weights_at
        ⟨(x : ℚ) / buf.width, (y : ℚ) / buf.height⟩) =
      (t.translated_triangle scene.camera).z_val
        ((t.projected_triangle scene.camera).get_weights_at
          ⟨(x : ℚ) / buf.width, (y : ℚ) / buf.height⟩) +
      scene.camera.position.z := by
  constructor
  · exact congrArg Prod.snd (paint_to_buffer_write t buf scene cf x y
      hp hzl hcull hx1 hx2 hy1 hy2 hxw hyh hc hz)
  · have hef : Triangle2D.edge_function (t.projected_triangle scene.camera).a
        (t.projected_triangle scene.camera).b (t.projected_triangle scene.camera).c ≠ 0 := by
      intro h0
      exact hcull (by simp [Triangle2D.signed_area, h0])
    have hsum := weights_sum_one (t.projected_triangle scene.camera)
      ⟨(x : ℚ) / buf.width, (y : ℚ) / buf.height⟩ hef
    simp only [Triangle3D.z_val, Triangle3D.translated_triangle,
      Triangle3D.translated_by, Point3D.translated_by,
      Point3D.get_translating_point] at hsum ⊢
    linear_combination scene.camera.position.z * hsum

/-- C1, witness for the amended theorem: triangle `T1y` (world `z = 1`),
camera at `z = -1`, buffer `buf0`, pixel `(0, 1)`: the stored depth is the
world-space value `1`, which is the camera-space depth `2` plus the
camera's `z = -1`. -/
theorem C1_depth_witness :
    (buf0.pixel_buffer.length = buf0.width * buf0.height) ∧
    (buf0.z_buffer.length = buf0.width * buf0.height) ∧
    (¬ (T1y.projected_triangle scene1x.camera).signed_area ≤ 0) ∧
    (((T1y.projected_triangle scene1x.camera).get_bounding_box_px buf0.width buf0.height).1.1 ≤ 0) ∧
    (0 < ((T1y.projected_triangle scene1x.camera).get_bounding_box_px buf0.width buf0.height).1.2) ∧
    (((T1y.projected_triangle scene1x.camera).get_bounding_box_px buf0.width buf0.height).2.1 ≤ 1) ∧
    (1 < ((T1y.projected_triangle scene1x.camera).get_bounding_box_px buf0.width buf0.height).2.2) ∧
    (((T1y.projected_triangle scene1x.camera).get_bounding_box_px buf0.width buf0.height).1.2 ≤ buf0.width) ∧
    (1 < buf0.height) ∧
    ((T1y.projected_triangle scene1x.camera).contains_point
      ⟨((0 : ℕ) : ℚ) / (buf0.width : ℚ), ((1 : ℕ) : ℚ) / (buf0.height : ℚ)⟩ = true) ∧
    ((↑(T1y.z_val ((T1y.projected_triangle scene1x.camera).get_weights_at
        ⟨((0 : ℕ) : ℚ) / (buf0.width : ℚ), ((1 : ℕ) : ℚ) / (buf0.height : ℚ)⟩)) : WithTop ℚ)
        < buf0.z_buffer.getD (0 + 1 * buf0.width) ⊤) ∧
    ((T1y.paint_to_buffer buf0 scene1x cf1).z_buffer.getD (0 + 1 * buf0.width) ⊤ =
        ↑(T1y.z_val ((T1y.projected_triangle scene1x.camera).get_weights_at
          ⟨((0 : ℕ) : ℚ) / (buf0.width : ℚ), ((1 : ℕ) : ℚ) / (buf0.height : ℚ)⟩)) ∧
      T1y.z_val ((T1y.projected_triangle scene1x.camera).get_weights_at
          ⟨((0 : ℕ) : ℚ) / (buf0.width : ℚ), ((1 : ℕ) : ℚ) / (buf0.height : ℚ)⟩) =
        (T1y.translated_triangle scene1x.camera).z_val
          ((T1y.projected_triangle scene1x.camera).get_weights_at
            ⟨((0 : ℕ) : ℚ) / (buf0.width : ℚ), ((1 : ℕ) : ℚ) / (buf0.height : ℚ)⟩) +
        scene1x.camera.position.z) :=
  ⟨by with_unfolding_all decide, by with_unfolding_all decide,
   by with_unfolding_all decide, by with_unfolding_all decide,
   by with_unfolding_all decide, by with_unfolding_all decide,
   by with_unfolding_all decide, by with_unfolding_all decide,
   by with_unfolding_all decide, by with_unfolding_all decide,
   by with_unfolding_all decide,
   C1_depth_world_space T1y buf0 scene1x cf1 0 1
     (by with_unfolding_all decide) (by with_unfolding_all decide)
     (by with_unfolding_all decide) (by with_unfolding_all decide)
     (by with_unfolding_all decide) (by with_unfolding_all decide)
     (by with_unfolding_all decide) (by with_unfolding_all decide)
     (by with_unfolding_all decide) (by with_unfolding_all decide)
     (by with_unfolding_all decide)⟩

/-- Write case, stated against externally fixed dimensions `w`, `h`, which
makes it applicable to an already-painted buffer of the same dimensions. -/
theorem paint_to_buffer_write_wh (t : Triangle3D ℚ) (buf : PaintBuffer)
    (scene : Scene) (cf : ℚ → ℚ → ℚ → ℕ) (x y w h : ℕ)
    (hbw : buf.width = w) (hbh : buf.height = h)
    (hp : buf.pixel_buffer.length = w * h) (hzl : buf.z_buffer.length = w * h)
    (hcull : ¬ (t.projected_triangle scene.camera).signed_area ≤ 0)
    (hx1 : ((t.projected_triangle scene.camera).get_bounding_box_px w h).1.1 ≤ x)
    (hx2 : x < ((t.projected_triangle scene.camera).get_bounding_box_px w h).1.2)
    (hy1 : ((t.projected_triangle scene.camera).get_bounding_box_px w h).2.1 ≤ y)
    (hy2 : y < ((t.projected_triangle scene.camera).get_bounding_box_px w h).2.2)
    (hxw : ((t.projected_triangle scene.camera).get_bounding_box_px w h).1.2 ≤ w)
    (hyh : y < h)
    (hc : (t.projected_triangle scene.camera).contains_point
      ⟨(x : ℚ) / w, (y : ℚ) / h⟩ = true)
    (hz : (↑(t.z_val ((t.projected_triangle scene.camera).get_weights_at
        ⟨(x : ℚ) / w, (y : ℚ) / h⟩)) : WithTop ℚ)
        < buf.z_buffer.getD (x + y * w) ⊤) :
    entriesAt (t.paint_to_buffer buf scene cf) (x + y * w) =
      (cf ((t.projected_triangle scene.camera).get_weights_at
            ⟨(x : ℚ) / w, (y : ℚ) / h⟩).1
          ((t.projected_triangle scene.camera).get_weights_at
            ⟨(x : ℚ) / w, (y : ℚ) / h⟩).2.1
          ((t.projected_triangle scene.camera).get_weights_at
            ⟨(x : ℚ) / w, (y : ℚ) / h⟩).2.2,
       ↑(t.z_val ((t.projected_triangle scene.camera).get_weights_at
           ⟨(x : ℚ) / w, (y : ℚ) / h⟩))) := by
  subst hbw
  subst hbh
  exact paint_to_buffer_write t buf scene cf x y hp hzl hcull hx1 hx2 hy1 hy2 hxw hyh hc hz

/-- Keep case, stated against externally fixed dimensions `w`, `h`. -/
theorem paint_to_buffer_keep_wh (t : Triangle3D ℚ) (buf : PaintBuffer)
    (scene : Scene) (cf : ℚ → ℚ → ℚ → ℕ) (x y w h : ℕ)
    (hbw : buf.width = w) (hbh : buf.height = h)
    (hp : buf.pixel_buffer.length = w * h) (hzl : buf.z_buffer.length = w * h)
    (hcull : ¬ (t.projected_triangle scene.camera).signed_area ≤ 0)
    (hx1 : ((t.projected_triangle scene.camera).get_bounding_box_px w h).1.1 ≤ x)
    (hx2 : x < ((t.projected_triangle scene.camera).get_bounding_box_px w h).1.2)
    (hy1 : ((t.projected_triangle scene.camera).get_bounding_box_px w h).2.1 ≤ y)
    (hy2 : y < ((t.projected_triangle scene.camera).get_bounding_box_px w h).2.2)
    (hxw : ((t.projected_triangle scene.camera).get_bounding_box_px w h).1.2 ≤ w)
    (hyh : y < h)
    (hz : ¬ (↑(t.z_val ((t.projected_triangle scene.camera).get_weights_at
        ⟨(x : ℚ) / w, (y : ℚ) / h⟩)) : WithTop ℚ)
        < buf.z_buffer.getD (x + y * w) ⊤) :
    entriesAt (t.paint_to_buffer buf scene cf) (x + y * w) =
      entriesAt buf (x + y * w) := by
  subst hbw
  subst hbh
  exact paint_to_buffer_keep t buf scene cf x y hp hzl hcull hx1 hx2 hy1 hy2 hxw hyh hz

/-- C2, counterexample: `T1c` and `T2c` both survive culling and both
cover the buffer pixel `(0, 1)` (screen point `(0, 1/2)`, flat index `2`)
of the 2×2 buffer `buf0`; `T1c`'s interpolated depth there is `2`, `T2c`'s
is `3`, yet painting them in *either* order leaves `T2c`'s color `2` at
that pixel, not the nearer `T1c`'s color `1`.  (`T2c`'s bounding box
sticks out past the right buffer edge, so its loop iteration `(x, y) =
(2, 0)` aliases to flat index `2`, i.e. to buffer pixel `(0, 1)`, and
deposits `T2c`'s depth-1 screen point `(1, 0)` there first.) -/
theorem C2_order_counterexample :
    (¬ (T1c.projected_triangle scene0.camera).signed_area ≤ 0) ∧
    (¬ (T2c.projected_triangle scene0.camera).signed_area ≤ 0) ∧
    ((T1c.projected_triangle scene0.camera).contains_point ⟨0, 1/2⟩ = true) ∧
    ((T2c.projected_triangle scene0.camera).contains_point ⟨0, 1/2⟩ = true) ∧
    (T1c.z_val ((T1c.projected_triangle scene0.camera).get_weights_at ⟨0, 1/2⟩) = 2) ∧
    (T2c.z_val ((T2c.projected_triangle scene0.camera).get_weights_at ⟨0, 1/2⟩) = 3) ∧
    ((2 : ℚ) < 3) ∧
    (cf1 ((T1c.projected_triangle scene0.camera).get_weights_at ⟨0, 1/2⟩).1
       ((T1c.projected_triangle scene0.camera).get_weights_at ⟨0, 1/2⟩).2.1
       ((T1c.projected_triangle scene0.camera).get_weights_at ⟨0, 1/2⟩).2.2 = 1) ∧
    ((T2c.paint_to_buffer (T1c.paint_to_buffer buf0 scene0 cf1) scene0 cf2).pixel_buffer.getD 2 0 = 2) ∧
    ((T1c.paint_to_buffer (T2c.paint_to_buffer buf0 scene0 cf2) scene0 cf1).pixel_buffer.getD 2 0 = 2) ∧
    ((2 : ℕ) ≠ 1) := by
  refine ⟨?_, ?_, ?_, ?_, ?_, ?_, ?_, ?_, ?_, ?_, ?_⟩ <;> with_unfolding_all decide

/-- C2, amended: for two triangles that survive culling, a buffer pixel
`(x, y)` covered by both, *bounding boxes that do not stick out past the
right buffer edge* (so no flat-index aliasing occurs), and a stored depth
at that pixel above the nearer triangle's interpolated depth, the pixel
ends up with the color of the strictly nearer triangle in either paint
order; at exactly equal depths the first-painted triangle keeps the
pixel. -/
theorem C2_depth_order (t1 t2 : Triangle3D ℚ) (buf : PaintBuffer)
    (scene : Scene) (f1 f2 : ℚ → ℚ → ℚ → ℕ) (x y : ℕ) (p : Point2D)
    (hpt : p = ⟨(x : ℚ) / buf.width, (y : ℚ) / buf.height⟩)
    (w1 w2 : ℚ × ℚ × ℚ)
    (hw1 : w1 = (t1.projected_triangle scene.camera).get_weights_at p)
    (hw2 : w2 = (t2.projected_triangle scene.camera).get_weights_at p)
    (z1 z2 : ℚ)
    (hz1 : z1 = t1.z_val w1) (hz2 : z2 = t2.z_val w2)
    (hp : buf.pixel_buffer.length = buf.width * buf.height)
    (hzl : buf.z_buffer.length = buf.width * buf.height)
    (hcull1 : ¬ (t1.projected_triangle scene.camera).signed_area ≤ 0)
    (hcull2 : ¬ (t2.projected_triangle scene.camera).signed_area ≤ 0)
    (hbb1 : ((t1.projected_triangle scene.camera).get_bounding_box_px buf.width buf.height).1.1 ≤ x ∧
      x < ((t1.projected_triangle scene.camera).get_bounding_box_px buf.width buf.height).1.2 ∧
      ((t1.projected_triangle scene.camera).get_bounding_box_px buf.width buf.height).2.1 ≤ y ∧
      y < ((t1.projected_triangle scene.camera).get_bounding_box_px buf.width buf.height).2.2 ∧
      ((t1.projected_triangle scene.camera).get_bounding_box_px buf.width buf.height).1.2 ≤ buf.width)
    (hbb2 : ((t2.projected_triangle scene.camera).get_bounding_box_px buf.width buf.height).1.1 ≤ x ∧
      x < ((t2.projected_triangle scene.camera).get_bounding_box_px buf.width buf.height).1.2 ∧
      ((t2.projected_triangle scene.camera).get_bounding_box_px buf.width buf.height).2.1 ≤ y ∧
      y < ((t2.projected_triangle scene.camera).get_bounding_box_px buf.width buf.height).2.2 ∧
      ((t2.projected_triangle scene.camera).get_bounding_box_px buf.width buf.height).1.2 ≤ buf.width)
    (hyh : y < buf.height)
    (hc1 : (t1.projected_triangle scene.camera).contains_point p = true)
    (hc2 : (t2.projected_triangle scene.camera).contains_point p = true)
    (hold : (↑z1 : WithTop ℚ) < buf.z_buffer.getD (x + y * buf.width) ⊤) :
    (z1 < z2 →
      (t2.paint_to_buffer (t1.paint_to_buffer buf scene f1) scene f2).pixel_buffer.getD
          (x + y * buf.width) 0 = f1 w1.1 w1.2.1 w1.2.2 ∧
      (t1.paint_to_buffer (t2.paint_to_buffer buf scene f2) scene f1).pixel_buffer.getD
          (x + y * buf.width) 0 = f1 w1.1 w1.2.1 w1.2.2) ∧
    (z1 = z2 →
      (t2.paint_to_buffer (t1.paint_to_buffer buf scene f1) scene f2).pixel_buffer.getD
          (x + y * buf.width) 0 = f1 w1.1 w1.2.1 w1.2.2 ∧
      (t1.paint_to_buffer (t2.paint_to_buffer buf scene f2) scene f1).pixel_buffer.getD
          (x + y * buf.width) 0 = f2 w2.1 w2.2.1 w2.2.2) := by
  subst hpt
  subst hw1
  subst hw2
  subst hz1
  subst hz2
  obtain ⟨hx11, hx12, hy11, hy12, hxw1⟩ := hbb1
  obtain ⟨hx21, hx22, hy21, hy22, hxw2⟩ := hbb2
  have hd1 := paint_to_buffer_dims t1 buf scene f1
  have hd2 := paint_to_buffer_dims t2 buf scene f2
  have hW1 := paint_to_buffer_write_wh t1 buf scene f1 x y buf.width buf.height
    rfl rfl hp hzl hcull1 hx11 hx12 hy11 hy12 hxw1 hyh hc1 hold
  have hz1stored : (t1.paint_to_buffer buf scene f1).z_buffer.getD (x + y * buf.width) ⊤ =
      ↑(t1.z_val ((t1.projected_triangle scene.camera).get_weights_at
        ⟨(x : ℚ) / buf.width, (y : ℚ) / buf.height⟩)) := congrArg Prod.snd hW1
  constructor
  · intro hlt
    constructor
    · have hK := paint_to_buffer_keep_wh t2 (t1.paint_to_buffer buf scene f1)
        scene f2 x y buf.width buf.height hd1.1 hd1.2.1
        (hd1.2.2.1.trans hp) (hd1.2.2.2.trans hzl) hcull2
        hx21 hx22 hy21 hy22 hxw2 hyh
        (by
          rw [hz1stored]
          rw [WithTop.coe_lt_coe]
          exact fun hcon => absurd hcon (not_lt.mpr (le_of_lt hlt)))
      exact congrArg Prod.fst (hK.trans hW1)
    · by_cases hz2old : (↑(t2.z_val ((t2.projected_triangle scene.camera).get_weights_at
          ⟨(x : ℚ) / buf.width, (y : ℚ) / buf.height⟩)) : WithTop ℚ)
          < buf.z_buffer.getD (x + y * buf.width) ⊤
      · have hW2 := paint_to_buffer_write_wh t2 buf scene f2 x y buf.width buf.height
          rfl rfl hp hzl hcull2 hx21 hx22 hy21 hy22 hxw2 hyh hc2 hz2old
        have hz2stored : (t2.paint_to_buffer buf scene f2).z_buffer.getD (x + y * buf.width) ⊤ =
            ↑(t2.z_val ((t2.projected_triangle scene.camera).get_weights_at
              ⟨(x : ℚ) / buf.width, (y : ℚ) / buf.height⟩)) := congrArg Prod.snd hW2
        have hW1' := paint_to_buffer_write_wh t1 (t2.paint_to_buffer buf scene f2)
          scene f1 x y buf.width buf.height hd2.1 hd2.2.1
          (hd2.2.2.1.trans hp) (hd2.2.2.2.trans hzl) hcull1
          hx11 hx12 hy11 hy12 hxw1 hyh hc1
          (by rw [hz2stored]; exact WithTop.coe_lt_coe.mpr hlt)
        exact congrArg Prod.fst hW1'
      · have hK2 := paint_to_buffer_keep_wh t2 buf scene f2 x y buf.width buf.height
          rfl rfl hp hzl hcull2 hx21 hx22 hy21 hy22 hxw2 hyh hz2old
        have hzkeep : (t2.paint_to_buffer buf scene f2).z_buffer.getD (x + y * buf.width) ⊤ =
            buf.z_buffer.getD (x + y * buf.width) ⊤ := congrArg Prod.snd hK2
        have hW1' := paint_to_buffer_write_wh t1 (t2.paint_to_buffer buf scene f2)
          scene f1 x y buf.width buf.height hd2.1 hd2.2.1
          (hd2.2.2.1.trans hp) (hd2.2.2.2.trans hzl) hcull1
          hx11 hx12 hy11 hy12 hxw1 hyh hc1 (by rw [hzkeep]; exact hold)
        exact congrArg Prod.fst hW1'
  · intro hEq
    constructor
    · have hK := paint_to_buffer_keep_wh t2 (t1.paint_to_buffer buf scene f1)
        scene f2 x y buf.width buf.height hd1.1 hd1.2.1
        (hd1.2.2.1.trans hp) (hd1.2.2.2.trans hzl) hcull2
        hx21 hx22 hy21 hy22 hxw2 hyh
        (by
          rw [hz1stored]
          rw [WithTop.coe_lt_coe]
          rw [← hEq]
          exact lt_irrefl _)
      exact congrArg Prod.fst (hK.trans hW1)
    · have hW2 := paint_to_buffer_write_wh t2 buf scene f2 x y buf.width buf.height
        rfl rfl hp hzl hcull2 hx21 hx22 hy21 hy22 hxw2 hyh hc2 (by rw [← hEq]; exact hold)
      have hz2stored : (t2.paint_to_buffer buf scene f2).z_buffer.getD (x + y * buf.width) ⊤ =
          ↑(t2.z_val ((t2.projected_triangle scene.camera).get_weights_at
            ⟨(x : ℚ) / buf.width, (y : ℚ) / buf.height⟩)) := congrArg Prod.snd hW2
      have hK1 := paint_to_buffer_keep_wh t1 (t2.paint_to_buffer buf scene f2)
        scene f1 x y buf.width buf.height hd2.1 hd2.2.1
        (hd2.2.2.1.trans hp) (hd2.2.2.2.trans hzl) hcull1
        hx11 hx12 hy11 hy12 hxw1 hyh
        (by
          rw [hz2stored]
          rw [WithTop.coe_lt_coe]
          rw [hEq]
          exact lt_irrefl _)
      exact congrArg Prod.fst (hK1.trans hW2)

/-- C2, witness for the amended theorem: `T1c` (depth `2`) and `T2w`
(depth `3`) both contain buffer pixel `(0, 1)` of `buf0`, neither bounding
box sticks out past the right edge, and in both paint orders the pixel
ends with `T1c`'s color. -/
theorem C2_depth_order_witness :
    (buf0.pixel_buffer.length = buf0.width * buf0.height) ∧
    (buf0.z_buffer.length = buf0.width * buf0.height) ∧
    (¬ (T1c.projected_triangle scene0.camera).signed_area ≤ 0) ∧
    (¬ (T2w.projected_triangle scene0.camera).signed_area ≤ 0) ∧
    (((T1c.projected_triangle scene0.camera).get_bounding_box_px buf0.width buf0.height).1.1 ≤ 0 ∧
      0 < ((T1c.projected_triangle scene0.camera).get_bounding_box_px buf0.width buf0.height).1.2 ∧
      ((T1c.projected_triangle scene0.camera).get_bounding_box_px buf0.width buf0.height).2.1 ≤ 1 ∧
      1 < ((T1c.projected_triangle scene0.camera).get_bounding_box_px buf0.width buf0.height).2.2 ∧
      ((T1c.projected_triangle scene0.camera).get_bounding_box_px buf0.width buf0.height).1.2 ≤ buf0.width) ∧
    (((T2w.projected_triangle scene0.camera).get_bounding_box_px buf0.width buf0.height).1.1 ≤ 0 ∧
      0 < ((T2w.projected_triangle scene0.camera).get_bounding_box_px buf0.width buf0.height).1.2 ∧
      ((T2w.projected_triangle scene0.camera).get_bounding_box_px buf0.width buf0.height).2.1 ≤ 1 ∧
      1 < ((T2w.projected_triangle scene0.camera).get_bounding_box_px buf0.width buf0.height).2.2 ∧
      ((T2w.projected_triangle scene0.camera).get_bounding_box_px buf0.width buf0.height).1.2 ≤ buf0.width) ∧
    (1 < buf0.height) ∧
    ((T1c.projected_triangle scene0.camera).contains_point pW = true) ∧
    ((T2w.projected_triangle scene0.camera).contains_point pW = true) ∧
    ((↑z1W : WithTop ℚ) < buf0.z_buffer.getD (0 + 1 * buf0.width) ⊤) ∧
    (z1W < z2W) ∧
    ((T2w.paint_to_buffer (T1c.paint_to_buffer buf0 scene0 cf1) scene0 cf2).pixel_buffer.getD
        (0 + 1 * buf0.width) 0 = cf1 w1W.1 w1W.2.1 w1W.2.2 ∧
      (T1c.paint_to_buffer (T2w.paint_to_buffer buf0 scene0 cf2) scene0 cf1).pixel_buffer.getD
        (0 + 1 * buf0.width) 0 = cf1 w1W.1 w1W.2.1 w1W.2.2) :=
  ⟨by with_unfolding_all decide, by with_unfolding_all decide,
   by with_unfolding_all decide, by with_unfolding_all decide,
   by with_unfolding_all decide, by with_unfolding_all decide,
   by with_unfolding_all decide, by with_unfolding_all decide,
   by with_unfolding_all decide, by with_unfolding_all decide,
   by with_unfolding_all decide,
   (C2_depth_order T1c T2w buf0 scene0 cf1 cf2 0 1 pW rfl w1W w2W rfl rfl z1W z2W rfl rfl
      (by with_unfolding_all decide) (by with_unfolding_all decide)
      (by with_unfolding_all decide) (by with_unfolding_all decide)
      (by with_unfolding_all decide) (by with_unfolding_all decide)
      (by with_unfolding_all decide) (by with_unfolding_all decide)
      (by with_unfolding_all decide) (by with_unfolding_all decide)).1
     (by with_unfolding_all decide)⟩

/-- A pixel step that does not touch flat index `j` (because its index
differs, its index is guarded out, or its containment test fails) leaves
the entry at `j` unchanged. -/
theorem paint_pixel_entriesAt_skip (t : Triangle3D ℚ) (proj : Triangle2D)
    (cf : ℚ → ℚ → ℚ → ℕ) (buf : PaintBuffer) (xy : ℕ × ℕ) {j : ℕ}
    (h : ¬ (xy.1 + xy.2 * buf.width = j ∧
        xy.1 + xy.2 * buf.width < buf.pixel_buffer.length ∧
        proj.contains_point
          ⟨(xy.1 : ℚ) / buf.width, (xy.2 : ℚ) / buf.height⟩ = true)) :
    entriesAt (t.paint_pixel proj cf buf xy) j = entriesAt buf j := by
  by_cases hidx : xy.1 + xy.2 * buf.width = j
  · simp only [Triangle3D.paint_pixel]
    by_cases hg : xy.1 + xy.2 * buf.width ≥ buf.pixel_buffer.length
    · rw [if_pos hg]
    · rw [if_neg hg]
      by_cases hc : proj.contains_point
          ⟨(xy.1 : ℚ) / buf.width, (xy.2 : ℚ) / buf.height⟩
      · exact absurd ⟨hidx, by omega, hc⟩ h
      · rw [if_neg (by simp [hc])]
  · exact paint_pixel_entriesAt_ne t proj cf buf xy hidx

/-- The pixel loop leaves the entry at `j` unchanged when no visited pixel
touches `j`. -/
theorem foldl_paint_untouched (t : Triangle3D ℚ) (proj : Triangle2D)
    (cf : ℚ → ℚ → ℚ → ℕ) (l : List (ℕ × ℕ)) (buf : PaintBuffer) {j : ℕ}
    (h : ∀ ab ∈ l, ¬ (ab.1 + ab.2 * buf.width = j ∧
        ab.1 + ab.2 * buf.width < buf.pixel_buffer.length ∧
        proj.contains_point
          ⟨(ab.1 : ℚ) / buf.width, (ab.2 : ℚ) / buf.height⟩ = true)) :
    entriesAt (l.foldl (t.paint_pixel proj cf) buf) j = entriesAt buf j := by
  induction l generalizing buf with
  | nil => rfl
  | cons a l ih =>
    have hw := paint_pixel_width t proj cf buf a
    have hh := paint_pixel_height t proj cf buf a
    have hl := paint_pixel_pixel_length t proj cf buf a
    simp only [List.foldl_cons]
    have hstep := paint_pixel_entriesAt_skip t proj cf buf a
      (h a (List.mem_cons_self a l))
    have ih' := ih (t.paint_pixel proj cf buf a)
      (fun ab hab => by
        rw [hw, hh, hl]
        exact h ab (List.mem_cons_of_mem a hab))
    rw [ih', hstep]

/-- C7: under the `PaintBuffer` length invariant, every flat index at
which `Triangle3D::paint_to_buffer` touches `pixel_buffer` or `z_buffer`
is strictly below `width * height` (indices outside are skipped by the
defensive guard), and at every index it does not touch, both buffers are
left unchanged. -/
theorem C7_no_oob (t : Triangle3D ℚ) (buf : PaintBuffer) (scene : Scene)
    (cf : ℚ → ℚ → ℚ → ℕ)
    (hp : buf.pixel_buffer.length = buf.width * buf.height)
    (hzl : buf.z_buffer.length = buf.width * buf.height) :
    (∀ a ∈ t.paint_accesses buf.width buf.height buf.pixel_buffer.length scene,
      a < buf.width * buf.height) ∧
    (∀ j, j ∉ t.paint_accesses buf.width buf.height buf.pixel_buffer.length scene →
      (t.paint_to_buffer buf scene cf).pixel_buffer.getD j 0 = buf.pixel_buffer.getD j 0 ∧
      (t.paint_to_buffer buf scene cf).z_buffer.getD j ⊤ = buf.z_buffer.getD j ⊤) := by
  constructor
  · intro a ha
    simp only [Triangle3D.paint_accesses] at ha
    split_ifs at ha with hcull
    · simp at ha
    · rw [List.mem_flatMap] at ha
      obtain ⟨xy, _, hmem⟩ := ha
      split_ifs at hmem with hg hc
      · simp at hmem
      · rw [List.mem_singleton] at hmem
        omega
      · simp at hmem
  · intro j hj
    simp only [Triangle3D.paint_accesses] at hj
    simp only [Triangle3D.paint_to_buffer]
    split_ifs with hcull
    · exact ⟨rfl, rfl⟩
    · rw [if_neg hcull] at hj
      have huntouched := foldl_paint_untouched t (t.projected_triangle scene.camera) cf
        (pixelList
          ((t.projected_triangle scene.camera).get_bounding_box_px buf.width buf.height).1
          ((t.projected_triangle scene.camera).get_bounding_box_px buf.width buf.height).2)
        buf
        (j := j)
        (by
          intro ab hab hcon
          apply hj
          rw [List.mem_flatMap]
          refine ⟨ab, hab, ?_⟩
          rw [if_neg (by omega), if_pos hcon.2.2, List.mem_singleton]
          exact hcon.1.symm)
      exact ⟨congrArg Prod.fst huntouched, congrArg Prod.snd huntouched⟩

/-- C7, witness at `T1c`, `buf0`, `scene0`. -/
theorem C7_no_oob_witness :
    (buf0.pixel_buffer.length = buf0.width * buf0.height) ∧
    (buf0.z_buffer.length = buf0.width * buf0.height) ∧
    ((∀ a ∈ T1c.paint_accesses buf0.width buf0.height buf0.pixel_buffer.length scene0,
        a < buf0.width * buf0.height) ∧
      (∀ j, j ∉ T1c.paint_accesses buf0.width buf0.height buf0.pixel_buffer.length scene0 →
        (T1c.paint_to_buffer buf0 scene0 cf1).pixel_buffer.getD j 0 =
          buf0.pixel_buffer.getD j 0 ∧
        (T1c.paint_to_buffer buf0 scene0 cf1).z_buffer.getD j ⊤ =
          buf0.z_buffer.getD j ⊤)) :=
  ⟨by with_unfolding_all decide, by with_unfolding_all decide,
   C7_no_oob T1c buf0 scene0 cf1
     (by with_unfolding_all decide) (by with_unfolding_all decide)⟩

/-- A `Triangle2D` pixel step with an out-of-range index panics. -/
theorem paint_pixel2_eq_none (t : Triangle2D) (pv : ℕ) (buf : PaintBuffer)
    (xy : ℕ × ℕ) (h : ¬ xy.1 + xy.2 * buf.width < buf.pixel_buffer.length) :
    t.paint_pixel pv buf xy = none := by
  simp only [Triangle2D.paint_pixel]
  rw [if_neg h]

/-- Unpacking a successful `Triangle2D` pixel step: the index was in
bounds and only `pixel_buffer` changed, by a single `set`. -/
theorem paint_pixel2_eq_some (t : Triangle2D) (pv : ℕ) (buf b : PaintBuffer)
    (xy : ℕ × ℕ) (h : t.paint_pixel pv buf xy = some b) :
    b.width = buf.width ∧ b.height = buf.height ∧ b.z_buffer = buf.z_buffer ∧
    b.pixel_buffer = buf.pixel_buffer.set (xy.1 + xy.2 * buf.width)
      (if t.contains_point ⟨(xy.1 : ℚ) / buf.width, (xy.2 : ℚ) / buf.height⟩
        then pv else 0x000000) ∧
    xy.1 + xy.2 * buf.width < buf.pixel_buffer.length := by
  by_cases hg : xy.1 + xy.2 * buf.width < buf.pixel_buffer.length
  · simp only [Triangle2D.paint_pixel, if_pos hg] at h
    injection h with h
    subst h
    exact ⟨rfl, rfl, rfl, rfl, hg⟩
  · rw [paint_pixel2_eq_none t pv buf xy hg] at h
    exact absurd h (by simp)

/-- A successful `Triangle2D` pixel step, spelled out. -/
theorem paint_pixel2_some_of_lt (t : Triangle2D) (pv : ℕ) (buf : PaintBuffer)
    (xy : ℕ × ℕ) (h : xy.1 + xy.2 * buf.width < buf.pixel_buffer.length) :
    t.paint_pixel pv buf xy = some ⟨buf.width, buf.height, buf.z_buffer,
      buf.pixel_buffer.set (xy.1 + xy.2 * buf.width)
        (if t.contains_point ⟨(xy.1 : ℚ) / buf.width, (xy.2 : ℚ) / buf.height⟩
          then pv else 0x000000)⟩ := by
  simp only [Triangle2D.paint_pixel, if_pos h]

/-- If any visited index is out of range, the whole `Triangle2D` pixel
loop panics (`none`), regardless of where in the list it sits. -/
theorem foldlM_paint2_none (t : Triangle2D) (pv : ℕ) (l : List (ℕ × ℕ))
    (buf : PaintBuffer)
    (h : ∃ xy ∈ l, ¬ xy.1 + xy.2 * buf.width < buf.pixel_buffer.length) :
    l.foldlM (t.paint_pixel pv) buf = none := by
  induction l generalizing buf with
  | nil => simp at h
  | cons a l ih =>
    rw [List.foldlM_cons, Option.bind_eq_bind]
    obtain ⟨xy, hmem, hoob⟩ := h
    by_cases ha : a.1 + a.2 * buf.width < buf.pixel_buffer.length
    · rw [paint_pixel2_some_of_lt t pv buf a ha, Option.some_bind]
      apply ih
      rcases List.mem_cons.mp hmem with h1 | h1
      · subst h1; omega
      · exact ⟨xy, h1, by simpa using hoob⟩
    · rw [paint_pixel2_eq_none t pv buf a ha, Option.none_bind]

/-- If every visited index is in range, the `Triangle2D` pixel loop
succeeds, preserving dimensions, the pixel-buffer length, and the whole
depth buffer. -/
theorem foldlM_paint2_some (t : Triangle2D) (pv : ℕ) (l : List (ℕ × ℕ))
    (buf : PaintBuffer)
    (h : ∀ xy ∈ l, xy.1 + xy.2 * buf.width < buf.pixel_buffer.length) :
    ∃ b, l.foldlM (t.paint_pixel pv) buf = some b ∧
      b.width = buf.width ∧ b.height = buf.height ∧
      b.pixel_buffer.length = buf.pixel_buffer.length ∧ b.z_buffer = buf.z_buffer := by
  induction l generalizing buf with
  | nil => exact ⟨buf, rfl, rfl, rfl, rfl, rfl⟩
  | cons a l ih =>
    have ha := h a (List.mem_cons_self a l)
    rw [List.foldlM_cons, Option.bind_eq_bind,
      paint_pixel2_some_of_lt t pv buf a ha, Option.some_bind]
    obtain ⟨b, hb, hbw, hbh, hbl, hbz⟩ := ih
      ⟨buf.width, buf.height, buf.z_buffer,
        buf.pixel_buffer.set (a.1 + a.2 * buf.width)
          (if t.contains_point ⟨(a.1 : ℚ) / buf.width, (a.2 : ℚ) / buf.height⟩
            then pv else 0x000000)⟩
      (fun xy hxy => by simpa using h xy (List.mem_cons_of_mem a hxy))
    exact ⟨b, hb, hbw, hbh, by simpa using hbl, hbz⟩

/-- A successful `Triangle2D` pixel loop leaves indices no visited pixel
maps to unchanged. -/
theorem foldlM_paint2_untouched (t : Triangle2D) (pv : ℕ) (l : List (ℕ × ℕ))
    (buf b : PaintBuffer) {j : ℕ}
    (hsome : l.foldlM (t.paint_pixel pv) buf = some b)
    (h : ∀ ab ∈ l, ab.1 + ab.2 * buf.width ≠ j) :
    b.pixel_buffer.getD j 0 = buf.pixel_buffer.getD j 0 := by
  induction l generalizing buf with
  | nil =>
    simp only [List.foldlM_nil] at hsome
    injection hsome with hsome
    subst hsome
    rfl
  | cons a l ih =>
    rw [List.foldlM_cons, Option.bind_eq_bind, Option.bind_eq_some] at hsome
    obtain ⟨buf1, h1, h2⟩ := hsome
    obtain ⟨hw1, hh1, hz1, hpx1, hlt1⟩ := paint_pixel2_eq_some t pv buf buf1 a h1
    have hkeep : buf1.pixel_buffer.getD j 0 = buf.pixel_buffer.getD j 0 := by
      rw [hpx1, List.getD_eq_getElem?_getD,
        List.getElem?_set_ne (h a (List.mem_cons_self a l)),
        ← List.getD_eq_getElem?_getD]
    rw [← hkeep]
    exact ih buf1 h2 (fun ab hab => by
      rw [hw1]
      exact h ab (List.mem_cons_of_mem a hab))

/-- A successful `Triangle2D` pixel loop writes, at a flat index whose
only visited source pixel is `xy`, the containment-dependent value. -/
theorem foldlM_paint2_entry (t : Triangle2D) (pv : ℕ) (l : List (ℕ × ℕ))
    (buf b : PaintBuffer) (xy : ℕ × ℕ) {j : ℕ}
    (hsome : l.foldlM (t.paint_pixel pv) buf = some b)
    (hmem : xy ∈ l)
    (huniq : ∀ ab ∈ l, ab.1 + ab.2 * buf.width = j → ab = xy)
    (hidx : xy.1 + xy.2 * buf.width = j)
    (hj : j < buf.pixel_buffer.length) :
    b.pixel_buffer.getD j 0 =
      if t.contains_point ⟨(xy.1 : ℚ) / buf.width, (xy.2 : ℚ) / buf.height⟩
        then pv else 0x000000 := by
  induction l generalizing buf with
  | nil => simp at hmem
  | cons a l ih =>
    rw [List.foldlM_cons, Option.bind_eq_bind, Option.bind_eq_some] at hsome
    obtain ⟨buf1, h1, h2⟩ := hsome
    obtain ⟨hw1, hh1, hz1, hpx1, hlt1⟩ := paint_pixel2_eq_some t pv buf buf1 a h1
    have hlen1 : buf1.pixel_buffer.length = buf.pixel_buffer.length := by
      rw [hpx1]; simp
    by_cases ha : a = xy
    · subst ha
      have hwrite : buf1.pixel_buffer.getD j 0 =
          if t.contains_point ⟨(a.1 : ℚ) / buf.width, (a.2 : ℚ) / buf.height⟩
            then pv else 0x000000 := by
        rw [hpx1, hidx, List.getD_eq_getElem?_getD, List.getElem?_set_self (by omega)]
        rfl
      by_cases hm : a ∈ l
      · have hrec := ih buf1 h2 hm
          (fun ab hab hab2 => huniq ab (List.mem_cons_of_mem a hab)
            (by rw [← hab2, hw1]))
          (by rw [hw1]; exact hidx) (by omega)
        rw [hrec, hw1, hh1]
      · have hnone : ∀ ab ∈ l, ab.1 + ab.2 * buf1.width ≠ j := by
          intro ab hab hcon
          rw [hw1] at hcon
          exact hm ((huniq ab (List.mem_cons_of_mem a hab) hcon) ▸ hab)
        rw [foldlM_paint2_untouched t pv l buf1 b h2 hnone, hwrite]
    · have hm : xy ∈ l := by
        rcases List.mem_cons.mp hmem with h1' | h1'
        · exact absurd h1'.symm ha
        · exact h1'
      have hrec := ih buf1 h2 hm
        (fun ab hab hab2 => huniq ab (List.mem_cons_of_mem a hab)
          (by rw [← hab2, hw1]))
        (by rw [hw1]; exact hidx) (by omega)
      rw [hrec, hw1, hh1]

/-- C10: `Triangle2D::paint_to_buffer` (the older 2D path) performs no
depth test and no index bound check.  For a front-facing triangle: (a) on
any buffer whose pixel bounding box stays inside the buffer, it succeeds
and writes `paint_value` to every bounding-box pixel the triangle
contains and `0x000000` (black) to every other bounding-box pixel —
overwriting, not skipping them — leaves all pixels outside the box
unchanged, and never touches the depth buffer; (b) on any buffer where
some visited flat index falls outside `pixel_buffer`, the unguarded write
panics (modelled as `none`). -/
theorem C10_paint2d (t : Triangle2D) (pv : ℕ) (harea : 0 < t.signed_area) :
    (∀ buf : PaintBuffer,
      buf.pixel_buffer.length = buf.width * buf.height →
      (t.get_bounding_box_px buf.width buf.height).1.2 ≤ buf.width →
      (t.get_bounding_box_px buf.width buf.height).2.2 ≤ buf.height →
      ∃ b, t.paint_to_buffer buf pv = some b ∧
        b.z_buffer = buf.z_buffer ∧ b.width = buf.width ∧ b.height = buf.height ∧
        ∀ x y, x < buf.width → y < buf.height →
          b.pixel_buffer.getD (x + y * buf.width) 0 =
            if (t.get_bounding_box_px buf.width buf.height).1.1 ≤ x ∧
                x < (t.get_bounding_box_px buf.width buf.height).1.2 ∧
                (t.get_bounding_box_px buf.width buf.height).2.1 ≤ y ∧
                y < (t.get_bounding_box_px buf.width buf.height).2.2 then
              (if t.contains_point ⟨(x : ℚ) / buf.width, (y : ℚ) / buf.height⟩
                then pv else 0x000000)
            else buf.pixel_buffer.getD (x + y * buf.width) 0) ∧
    (∀ buf : PaintBuffer,
      (∃ xy ∈ pixelList (t.get_bounding_box_px buf.width buf.height).1
          (t.get_bounding_box_px buf.width buf.height).2,
        ¬ xy.1 + xy.2 * buf.width < buf.pixel_buffer.length) →
      t.paint_to_buffer buf pv = none) := by
  have hns : ¬ t.signed_area ≤ 0 := not_le.mpr harea
  constructor
  · intro buf hp hbw hbh
    have hgood : ∀ xy ∈ pixelList (t.get_bounding_box_px buf.width buf.height).1
        (t.get_bounding_box_px buf.width buf.height).2,
        xy.1 + xy.2 * buf.width < buf.pixel_buffer.length := by
      intro xy hxy
      rw [pixelList_mem] at hxy
      have hx : xy.1 < buf.width := lt_of_lt_of_le hxy.2.1 hbw
      have hy : xy.2 < buf.height := lt_of_lt_of_le hxy.2.2.2 hbh
      rw [hp]
      calc xy.1 + xy.2 * buf.width < (xy.2 + 1) * buf.width := by
            rw [add_mul, one_mul]; omega
        _ ≤ buf.height * buf.width := Nat.mul_le_mul_right _ (by omega)
        _ = buf.width * buf.height := Nat.mul_comm _ _
    obtain ⟨b, hb, hbw', hbh', hbl, hbz⟩ := foldlM_paint2_some t pv
      (pixelList (t.get_bounding_box_px buf.width buf.height).1
        (t.get_bounding_box_px buf.width buf.height).2) buf hgood
    refine ⟨b, ?_, hbz, hbw', hbh', ?_⟩
    · simp only [Triangle2D.paint_to_buffer]
      rw [if_neg hns]
      exact hb
    · intro x y hx hy
      by_cases hin : (t.get_bounding_box_px buf.width buf.height).1.1 ≤ x ∧
          x < (t.get_bounding_box_px buf.width buf.height).1.2 ∧
          (t.get_bounding_box_px buf.width buf.height).2.1 ≤ y ∧
          y < (t.get_bounding_box_px buf.width buf.height).2.2
      · rw [if_pos hin]
        have hj : x + y * buf.width < buf.pixel_buffer.length := by
          rw [hp]
          calc x + y * buf.width < (y + 1) * buf.width := by
                rw [add_mul, one_mul]; omega
            _ ≤ buf.height * buf.width := Nat.mul_le_mul_right _ (by omega)
            _ = buf.width * buf.height := Nat.mul_comm _ _
        exact foldlM_paint2_entry t pv _ buf b (x, y) hb
          (by rw [pixelList_mem]; exact ⟨hin.1, hin.2.1, hin.2.2.1, hin.2.2.2⟩)
          (by
            intro ab hab hab2
            rw [pixelList_mem] at hab
            have ha1 : ab.1 < buf.width := lt_of_lt_of_le hab.2.1 hbw
            have := index_unique ha1 hx hab2
            exact Prod.ext this.1 this.2)
          rfl hj
      · rw [if_neg hin]
        exact foldlM_paint2_untouched t pv _ buf b hb
          (by
            intro ab hab hcon
            rw [pixelList_mem] at hab
            have ha1 : ab.1 < buf.width := lt_of_lt_of_le hab.2.1 hbw
            have := index_unique ha1 hx hcon
            exact hin (this.1 ▸ this.2 ▸ ⟨hab.1, hab.2.1, hab.2.2.1, hab.2.2.2⟩))
  · intro buf hoob
    simp only [Triangle2D.paint_to_buffer]
    rw [if_neg hns]
    exact foldlM_paint2_none t pv _ buf hoob

/-- C10, witness at the screen triangle `T2d` and paint value `9`. -/
theorem C10_paint2d_witness :
    0 < T2d.signed_area ∧
    ((∀ buf : PaintBuffer,
      buf.pixel_buffer.length = buf.width * buf.height →
      (T2d.get_bounding_box_px buf.width buf.height).1.2 ≤ buf.width →
      (T2d.get_bounding_box_px buf.width buf.height).2.2 ≤ buf.height →
      ∃ b, T2d.paint_to_buffer buf 9 = some b ∧
        b.z_buffer = buf.z_buffer ∧ b.width = buf.width ∧ b.height = buf.height ∧
        ∀ x y, x < buf.width → y < buf.height →
          b.pixel_buffer.getD (x + y * buf.width) 0 =
            if (T2d.get_bounding_box_px buf.width buf.height).1.1 ≤ x ∧
                x < (T2d.get_bounding_box_px buf.width buf.height).1.2 ∧
                (T2d.get_bounding_box_px buf.width buf.height).2.1 ≤ y ∧
                y < (T2d.get_bounding_box_px buf.width buf.height).2.2 then
              (if T2d.contains_point ⟨(x : ℚ) / buf.width, (y : ℚ) / buf.height⟩
                then 9 else 0x000000)
            else buf.pixel_buffer.getD (x + y * buf.width) 0) ∧
    (∀ buf : PaintBuffer,
      (∃ xy ∈ pixelList (T2d.get_bounding_box_px buf.width buf.height).1
          (T2d.get_bounding_box_px buf.width buf.height).2,
        ¬ xy.1 + xy.2 * buf.width < buf.pixel_buffer.length) →
      T2d.paint_to_buffer buf 9 = none)) :=
  ⟨by with_unfolding_all decide, C10_paint2d T2d 9 (by with_unfolding_all decide)⟩
